import Mathlib

/-!
# oarkflow/date: calendar primitives, the entry point of the natural-date interpreter, ages

A shallow embedding of `natural_date.go` and `age.go` (package `date`) together with the
part of Go's standard `time` package that the two files call.

## Modelling conventions

* Go `int`, `time.Month`, `time.Weekday` and `time.Duration` values are Lean integers.
  Where Go's 64-bit arithmetic can wrap or saturate on a value the code can receive,
  the wrap is written out (`wrapInt64`, `% 2^64`) and the saturation is modelled
  (`addSec`). The calendar fields themselves (months, days, hours, ...) are tiny
  compared with the 64-bit range, and `norm` is exact on them. The searches of
  `age.go` stop at `math.MaxInt` and `math.MinInt` and never step past them.
* A `time.Time` is an instant (a second count and a nanosecond part below `10^9`)
  paired with a location. The field `sec` holds Unix seconds; Go keeps
  `sec + unixToInternal`, the seconds since January 1 of year 1, in an `int64`, and
  every function here that builds a `Time` wraps or saturates that count as Go does.
  The monotonic clock reading is not modelled.
* A `time.Location` is its initial offset and its table of zone transitions, which is
  what `Location.lookup` consults. `time.UTC` and `time.FixedZone` have an empty table.
* The calendar arithmetic is that of Go up to version 1.22. Go counts "absolute"
  seconds in a `uint64` from January 1 of the year -292277022399, which lies a whole
  number of 400-year cycles (and of weeks) before year 1. Here the absolute count
  starts at January 1 of year 1, so it is Go's count less `internalToAbsolute`; what
  leaves the `uint64` range in Go is wrapped into it here (`Time.abs`,
  `daysSinceEpoch`, `absWeekday`).
-/

namespace time

/-! ## Locations -/

/-- A zone transition (`zoneTrans`): from Unix second `when` on, the offset east of UTC
is `offset` seconds. -/
structure zoneTrans where
  when : Int
  offset : Int
deriving DecidableEq, Repr

/-- A `time.Location`: the offset in force before the first transition and the
transitions, sorted by `when`. -/
structure Location where
  offset0 : Int
  tx : List zoneTrans
deriving DecidableEq, Repr

/-- The location `time.UTC`. -/
def UTC : Location := ⟨0, []⟩

/-- The location built by `time.FixedZone(name, offset)`. -/
def FixedZone (offset : Int) : Location := ⟨offset, []⟩

/-- The beginning of time for zone lookups (`alpha = -1 << 63`). -/
def alphaSec : Int := -9223372036854775808

/-- The end of time for zone lookups (`omega = 1<<63 - 1`). -/
def omegaSec : Int := 9223372036854775807

/-- A Go `int64` computation keeps the low 64 bits, read as a signed number. -/
def wrapInt64 (x : Int) : Int := (x + 9223372036854775808) % 18446744073709551616 - 9223372036854775808

/-- The scan behind `Location.lookup`: the transition in force at `sec`, given the
offset `off` in force since `start`. On a sorted table this is the entry that Go's
binary search finds. The result is `(offset, start, end)`. -/
def lookupFrom (sec : Int) (off start : Int) : List zoneTrans → Int × Int × Int
  | [] => (off, start, omegaSec)
  | tr :: rest =>
    if sec < tr.when then (off, start, tr.when) else lookupFrom sec tr.offset tr.when rest

/-- The method `(*Location).lookup`: the offset in use at Unix second `sec` and the
interval `[start, end)` of instants over which it is in use. -/
def Location.lookup (l : Location) (sec : Int) : Int × Int × Int :=
  lookupFrom sec l.offset0 alphaSec l.tx

/-- A location whose offset never changes (`time.UTC`, `time.FixedZone`). -/
def Location.isFixed (l : Location) : Prop := l.tx = []

instance (l : Location) : Decidable l.isFixed := by
  unfold Location.isFixed; infer_instance

/-! ## Instants -/

/-- A `time.Time` without a monotonic clock reading: `sec` is the Unix second, which Go
keeps as `ext = sec + unixToInternal` in an `int64`. -/
structure Time where
  sec : Int
  nsec : Fin 1000000000
  loc : Location
deriving DecidableEq, Repr

def secondsPerMinute : Int := 60
def secondsPerHour : Int := 3600
def secondsPerDay : Int := 86400
def secondsPerWeek : Int := 604800
def daysPer400Years : Int := 146097
def daysPer100Years : Int := 36524
def daysPer4Years : Int := 1461

/-- Seconds from January 1 of year 1 to the Unix epoch (`unixToInternal`). -/
def unixToInternal : Int := 62135596800

/-- The year in which Go's absolute count starts (`absoluteZeroYear`). -/
def absoluteZeroYear : Int := -292277022399

/-- Seconds from January 1 of the absolute zero year to January 1 of year 1
(`internalToAbsolute`). -/
def internalToAbsolute : Int := 9223371966579724800

/-- The duration constants of package `time`, in nanoseconds. -/
def Second : Int := 1000000000
def Hour : Int := 3600000000000

/-- The method `Time.unixSec`: `ext + internalToUnix` in `int64`. -/
def Time.unixSec (t : Time) : Int := wrapInt64 t.sec

/-- The method `Time.Location`. -/
def Time.Location (t : Time) : Location := t.loc

/-- The method `Time.Nanosecond`. -/
def Time.Nanosecond (t : Time) : Int := (t.nsec.val : Int)

/-- The offset east of UTC in force at `t` (second result of `Time.Zone`). -/
def Time.offset (t : Time) : Int := (t.loc.lookup t.unixSec).1

/-- The method `Time.abs`: the local wall-clock reading of `t`. Go returns
`uint64(sec + (unixToInternal + internalToAbsolute))` for the Unix second `sec` moved
by the offset; here the same count is taken from January 1 of year 1. -/
def Time.abs (t : Time) : Int :=
  (t.unixSec + t.offset + (unixToInternal + internalToAbsolute)) % 18446744073709551616 -
    internalToAbsolute

/-- The function `absWeekday`: Sunday is 0, Saturday is 6. January 1 of year 1 is a
Monday. -/
def absWeekday (abs : Int) : Int :=
  let sec := ((abs + internalToAbsolute + 1 * secondsPerDay) % 18446744073709551616) %
    secondsPerWeek
  sec / secondsPerDay

/-- The method `Time.Weekday`. -/
def Time.Weekday (t : Time) : Int := absWeekday t.abs

/-- The function `isLeap` of package `time`. Go's `%` truncates; a test against zero
is the same for every rounding. -/
def isLeap (year : Int) : Bool :=
  year % 4 == 0 && (year % 100 != 0 || year % 400 == 0)

/-- The table `daysBefore`: `daysBefore i` is the number of days in a non-leap year
before month `i + 1`. -/
def daysBefore (i : Int) : Int :=
  [0, 31, 59, 90, 120, 151, 181, 212, 243, 273, 304, 334, 365].getD i.toNat 0

/-- The function `daysIn`: the number of days in a month of a year. -/
def daysIn (m : Int) (year : Int) : Int :=
  if m = 2 ∧ isLeap year then 29 else daysBefore m - daysBefore (m - 1)

/-- The first half of `absDate` (what it returns when `full` is false): the year and
the zero-based day of the year of an absolute second count. -/
def absYearDay (abs : Int) : Int × Int :=
  -- Split into time and day.
  let d := abs / secondsPerDay
  -- Account for 400 year cycles.
  let n := d / daysPer400Years
  let y := 400 * n
  let d := d - daysPer400Years * n
  -- Cut off 100-year cycles; the last cycle has one extra leap year, so on the
  -- last day of that year d / daysPer100Years is 4 instead of 3: `n -= n >> 2`.
  let n := d / daysPer100Years
  let n := n - n / 4
  let y := y + 100 * n
  let d := d - daysPer100Years * n
  -- Cut off 4-year cycles.
  let n := d / daysPer4Years
  let y := y + 4 * n
  let d := d - daysPer4Years * n
  -- Cut off years within a 4-year cycle; again `n -= n >> 2`.
  let n := d / 365
  let n := n - n / 4
  let y := y + n
  let d := d - 365 * n
  (y + 1, d)

/-- The second half of `absDate`: month and day of the month from the zero-based day
of the year, in a leap year or not. -/
def ydayMonthDay (leap : Bool) (yday : Int) : Int × Int :=
  if leap ∧ yday = 31 + 29 - 1 then
    -- Leap day.
    (2, 29)
  else
    -- After leap day; pretend it was not there.
    let day := if leap ∧ yday > 31 + 29 - 1 then yday - 1 else yday
    -- Estimate month on assumption that every month has 31 days.
    let month := day / 31
    let end_ := daysBefore (month + 1)
    let (month, begin) :=
      if day ≥ end_ then (month + 1, end_) else (month, daysBefore month)
    (month + 1, day - begin + 1)

/-- The function `absDate`: year, month, day and zero-based day of the year of an
absolute second count. -/
def absDate (abs : Int) : Int × Int × Int × Int :=
  let (year, yday) := absYearDay abs
  let (month, day) := ydayMonthDay (isLeap year) yday
  (year, month, day, yday)

/-- The function `absClock`: hour, minute and second of an absolute second count. -/
def absClock (abs : Int) : Int × Int × Int :=
  let sec := abs % secondsPerDay
  let hour := sec / secondsPerHour
  let sec := sec - hour * secondsPerHour
  let min := sec / secondsPerMinute
  let sec := sec - min * secondsPerMinute
  (hour, min, sec)

/-- The method `Time.Date`: year, month and day. -/
def Time.Date (t : Time) : Int × Int × Int :=
  let r := absDate t.abs
  (r.1, r.2.1, r.2.2.1)

/-- The method `Time.Clock`: hour, minute and second. -/
def Time.Clock (t : Time) : Int × Int × Int := absClock t.abs

/-- The method `Time.Year`. -/
def Time.Year (t : Time) : Int := (absDate t.abs).1

/-- The method `Time.Month`. -/
def Time.Month (t : Time) : Int := (absDate t.abs).2.1

/-- The method `Time.Day`. -/
def Time.Day (t : Time) : Int := (absDate t.abs).2.2.1

/-- The method `Time.YearDay`: 1 to 365, or 366 in a leap year. -/
def Time.YearDay (t : Time) : Int := (absDate t.abs).2.2.2 + 1

/-- The method `Time.Hour`. -/
def Time.Hour (t : Time) : Int := (absClock t.abs).1

/-- The method `Time.Minute`. -/
def Time.Minute (t : Time) : Int := (absClock t.abs).2.1

/-- The method `Time.Second`. -/
def Time.Second (t : Time) : Int := (absClock t.abs).2.2

/-- The function `norm`: `(nhi, nlo)` with `hi * base + lo = nhi * base + nlo` and
`0 ≤ nlo < base`. Every quotient taken here has a non-negative numerator, where
Go's truncating division and Lean's `/` agree. -/
def norm (hi lo base : Int) : Int × Int :=
  let (hi, lo) :=
    if lo < 0 then
      let n := (-lo - 1) / base + 1
      (hi - n, lo + n * base)
    else (hi, lo)
  if lo ≥ base then
    let n := lo / base
    (hi + n, lo - n * base)
  else (hi, lo)

/-- The function `daysSinceEpoch`: the days from January 1 of year 1 to January 1 of
`year`. Go starts from `y := uint64(int64(year) - absoluteZeroYear)`, the years since
the absolute zero year; a year before that one wraps to a huge count. Year 1 lies
730692556 cycles of 400 years after the absolute zero year, so the same `y` less
292277022400 is the years since year 1. -/
def daysSinceEpoch (year : Int) : Int :=
  let y := (year - absoluteZeroYear) % 18446744073709551616 - 292277022400
  -- Add in days from 400-year cycles.
  let n := y / 400
  let y := y - 400 * n
  let d := daysPer400Years * n
  -- Add in 100-year cycles.
  let n := y / 100
  let y := y - 100 * n
  let d := d + daysPer100Years * n
  -- Add in 4-year cycles.
  let n := y / 4
  let y := y - 4 * n
  let d := d + daysPer4Years * n
  -- Add in non-leap years.
  let n := y
  d + 365 * n

/-- The wall-clock part of `time.Date`: the normalised fields turned into seconds since
January 1 of year 1, with the normalised nanoseconds. Month, nanosecond, second, minute
and hour overflow into the next larger field; the day is added as it stands. Go adds
and multiplies in `uint64`; the result is wrapped where it is turned into Unix
seconds, in `Date`. -/
def dateAbs (year month day hour min sec nsec : Int) : Int × Int :=
  -- Normalize month, overflowing into year.
  let m := month - 1
  let (year, m) := norm year m 12
  let month := m + 1
  -- Normalize nsec, sec, min, hour, overflowing into day.
  let (sec, nsec) := norm sec nsec 1000000000
  let (min, sec) := norm min sec 60
  let (hour, min) := norm hour min 60
  let (day, hour) := norm day hour 24
  -- Compute days since the epoch, add in days before this month.
  let d := daysSinceEpoch year
  let d := d + daysBefore (month - 1)
  let d := if isLeap year ∧ month ≥ 3 then d + 1 else d
  -- Add in days before today.
  let d := d + (day - 1)
  -- Add in time elapsed today.
  (d * secondsPerDay + (hour * secondsPerHour + min * secondsPerMinute + sec), nsec)

/-- The zone adjustment of `time.Date`: the Unix second for the wall-clock reading
`unix` (read as if it were UTC) in location `l`, in `int64` arithmetic. -/
def zoneAdjust (l : Location) (unix : Int) : Int :=
  let r := l.lookup unix
  let offset := r.1
  if offset ≠ 0 then
    let utc := wrapInt64 (unix - offset)
    -- If utc is valid for the zone we found, we have the right offset;
    -- if not, look utc up in the location.
    let offset := if utc < r.2.1 ∨ utc ≥ r.2.2 then (l.lookup utc).1 else offset
    wrapInt64 (unix - offset)
  else unix

/-- The function `time.Date`. The absolute count becomes Unix seconds in `int64`
(`int64(abs) + (absoluteToInternal + internalToUnix)`), and `unixTime` stores
`unix + unixToInternal` in `int64`. -/
def Date (year month day hour min sec nsec : Int) (loc : Location) : Time :=
  let r := dateAbs year month day hour min sec nsec
  let unix := wrapInt64 (r.1 - unixToInternal)
  let unix := zoneAdjust loc unix
  { sec := wrapInt64 (unix + unixToInternal) - unixToInternal
    nsec := ⟨(r.2 % 1000000000).toNat, by omega⟩
    loc := loc }

/-- The method `Time.addSec` on the seconds since year 1: the sum in `int64`, and the
largest or smallest count on overflow. -/
def addSec (ext d : Int) : Int :=
  let sum := wrapInt64 (ext + d)
  if decide (sum > ext) = decide (d > 0) then sum
  else if d > 0 then 9223372036854775807
  else -9223372036854775807

/-- The method `Time.Add`, for a duration in nanoseconds. Go's `/` and `%` truncate. -/
def Time.Add (t : Time) (d : Int) : Time :=
  let dsec := Int.tdiv d 1000000000
  let nsec := t.Nanosecond + Int.tmod d 1000000000
  let (dsec, nsec) :=
    if nsec ≥ 1000000000 then (dsec + 1, nsec - 1000000000)
    else if nsec < 0 then (dsec - 1, nsec + 1000000000)
    else (dsec, nsec)
  { sec := addSec (t.sec + unixToInternal) dsec - unixToInternal
    nsec := ⟨(nsec % 1000000000).toNat, by omega⟩
    loc := t.loc }

/-- The method `Time.AddDate`. -/
def Time.AddDate (t : Time) (years months days : Int) : Time :=
  let (year, month, day) := t.Date
  let (hour, min, sec) := t.Clock
  time.Date (year + years) (month + months) (day + days) hour min sec t.Nanosecond t.Location

/-- The method `Time.Before`: Go compares the `int64` seconds since year 1, which stand
in the same order as the Unix seconds kept here. -/
def Time.Before (t u : Time) : Prop :=
  t.sec < u.sec ∨ (t.sec = u.sec ∧ t.nsec.val < u.nsec.val)

/-- The method `Time.After`. -/
def Time.After (t u : Time) : Prop := u.Before t

/-- The method `Time.Equal`: the same instant, whatever the locations. -/
def Time.Equal (t u : Time) : Prop := t.sec = u.sec ∧ t.nsec = u.nsec

instance (t u : Time) : Decidable (t.Before u) := by
  unfold Time.Before; infer_instance

instance (t u : Time) : Decidable (t.After u) := by
  unfold Time.After; infer_instance

instance (t u : Time) : Decidable (t.Equal u) := by
  unfold Time.Equal; infer_instance

end time

namespace date

open time

/-! ## natural_date.go: calendar primitives -/

/-- The function `prevWeekday`: the previous week day relative to time `t`. -/
def prevWeekday (t : Time) (day : Int) : Time :=
  let d := t.Weekday - day
  let d := if d ≤ 0 then d + 7 else d
  t.Add (-Hour * 24 * d)

/-- The function `nextWeekday`: the next week day relative to time `t`. -/
def nextWeekday (t : Time) (day : Int) : Time :=
  let d := day - t.Weekday
  let d := if d ≤ 0 then d + 7 else d
  t.Add (Hour * 24 * d)

/-- The function `nextMonth`: the next month relative to time `t`. -/
def nextMonth (t : Time) (month : Int) : Time :=
  let y := t.Year
  let y := if month - t.Month ≤ 0 then y + 1 else y
  let day := t.Date.2.2
  let (hour, min, sec) := t.Clock
  time.Date y month day hour min sec 0 t.Location

/-- The function `prevMonth`. -/
def prevMonth (t : Time) (month : Int) : Time :=
  let y := t.Year
  let y := if t.Month - month ≤ 0 then y - 1 else y
  let day := t.Date.2.2
  let (hour, min, sec) := t.Clock
  time.Date y month day hour min sec 0 t.Location

/-- The function `truncateDay`: a date truncated to the day. -/
def truncateDay (t : Time) : Time :=
  let (y, m, d) := t.Date
  time.Date y m d 0 0 0 0 t.Location

/-- The function `BeginningOfMonth`. -/
def BeginningOfMonth (date : Time) : Time :=
  date.AddDate 0 0 (-date.Day + 1)

/-- The function `EndOfMonth`. -/
def EndOfMonth (date : Time) : Time :=
  date.AddDate 0 1 (-date.Day)

/-! ## natural_date.go: directions, classification flags and the entry point -/

/-- The directions available (`Direction`). -/
def Past : Int := 0
def Future : Int := 1

/-- The classification flags (`ExprType`): `ExprTypeInvalid` is the constant 0 and the
twelve flags are `1 << iota` for `iota` from 1 to 12. -/
def ExprTypeInvalid : Int := 0
def ExprTypeDate : Int := 2
def ExprTypeTime : Int := 4
def ExprTypeNow : Int := 8
def ExprTypeRelativeMinutes : Int := 16
def ExprTypeRelativeHours : Int := 32
def ExprTypeRelativeDays : Int := 64
def ExprTypeRelativeWeeks : Int := 128
def ExprTypeRelativeWeekdays : Int := 256
def ExprTypeRelativeMonth : Int := 512
def ExprTypeRelativeYear : Int := 1024
def ExprTypeClock12Hour : Int := 2048
def ExprTypeClock24Hour : Int := 4096

/-- The method `ExprType.IsTimeOnly`. -/
def IsTimeOnly (t : Int) : Bool := t == ExprTypeTime

/-- The method `ExprType.IsDateOnly`. -/
def IsDateOnly (t : Int) : Bool := t == ExprTypeDate

/-- Modelled from the spec: the declaration of `gparser` is produced from the grammar
and is not among the sources. The evaluator state owns the lower-cased input text
(`Buffer`), the resolved direction multiplier (`direction`), the working timestamp
(`t`), the accumulated classification (`exprType`) and the progress of the
recognition, kept here as one field `peg` of a type `σ` that is left open. -/
structure gparser (σ : Type) where
  Buffer : String
  direction : Int
  t : Time
  exprType : Int
  peg : σ

/-- The type `Option` of the package: a function applied to the evaluator, which may
end in a Go panic (`Except.error` with the panic's message). -/
abbrev OptionFn (σ : Type) := gparser σ → Except String (gparser σ)

/-- The generated recognizer and the library call that `ParseNaturalDate` relies on,
none of which is among the sources: `strings.ToLower`, the zero value of the
recognizer's own fields, and the methods `Init`, `Parse` (which reports a syntax
error or none) and `Execute`. -/
structure Recognizer (σ ε : Type) where
  ToLower : String → String
  zero : σ
  Init : gparser σ → gparser σ
  Parse : gparser σ → gparser σ × Option ε
  Execute : gparser σ → gparser σ

/-- The function `WithDirection`: sets the direction used for ambiguous expressions. -/
def WithDirection {σ : Type} (d : Int) : OptionFn σ := fun p =>
  if d = Past then Except.ok { p with direction := -1 }
  else if d = Future then Except.ok { p with direction := 1 }
  else Except.error "unhandled direction"

/-- The loop `for _, o := range options { o(p) }`; a panic ends it. -/
def applyOptions {σ : Type} : List (OptionFn σ) → gparser σ → Except String (gparser σ)
  | [], p => Except.ok p
  | o :: rest, p =>
    match o p with
    | Except.ok q => applyOptions rest q
    | Except.error msg => Except.error msg

/-- The zero value `time.Time{}`: January 1 of year 1, 00:00:00 UTC. -/
def zeroTime : Time := ⟨-62135596800, 0, UTC⟩

/-- The evaluator that `ParseNaturalDate` builds first; the fields the literal does
not name are zero. -/
def newParser {σ ε : Type} (G : Recognizer σ ε) (s : String) (ref : Time) : gparser σ :=
  { Buffer := G.ToLower s, direction := -1, t := ref, exprType := 0, peg := G.zero }

/-- The function `ParseNaturalDate`. The result is the returned triple (timestamp,
classification, error or none), or `Except.error` when the call panics. -/
def ParseNaturalDate {σ ε : Type} (G : Recognizer σ ε) (s : String) (ref : Time)
    (options : List (OptionFn σ)) : Except String (Time × Int × Option ε) :=
  let p := newParser G s ref
  if s = "first day of the month" ∨ s = "first day of this month" then
    Except.ok (BeginningOfMonth ref, p.exprType, none)
  else if s = "last day of the month" ∨ s = "last day of this month" then
    Except.ok (EndOfMonth ref, p.exprType, none)
  else
    match applyOptions options p with
    | Except.error msg => Except.error msg
    | Except.ok p =>
      let p := G.Init p
      match G.Parse p with
      | (_, some err) => Except.ok (zeroTime, ExprTypeInvalid, some err)
      | (p, none) =>
        let p := G.Execute p
        Except.ok (p.t, p.exprType, none)

/-- The method `gparser.withDirection`: the duration with direction. -/
def withDirection {σ : Type} (p : gparser σ) (d : Int) : Int :=
  wrapInt64 (d * p.direction)

/-- The method `gparser.dateExprSet`. -/
def dateExprSet {σ : Type} (p : gparser σ) (t : Time) : gparser σ :=
  { p with exprType := Int.lor p.exprType ExprTypeDate, t := t }

/-- The method `gparser.timeExprSet`. -/
def timeExprSet {σ : Type} (p : gparser σ) (t : Time) : gparser σ :=
  { p with exprType := Int.lor p.exprType ExprTypeTime, t := t }

/-! ## Values used in the statements below -/

/-- The days from January 1 of year 1 to January 1 of `year` on the proleptic Gregorian
calendar; `daysSinceEpoch` computes it for the years that Go's count holds. -/
def yearDays (year : Int) : Int :=
  365 * (year - 1) + (year - 1) / 4 - (year - 1) / 100 + (year - 1) / 400

/-- The days from January 1 of year 1 to the given day on the proleptic Gregorian
calendar. -/
def civilDays (year month day : Int) : Int :=
  yearDays year + daysBefore (month - 1) +
    (if isLeap year ∧ month ≥ 3 then 1 else 0) + (day - 1)

/-- A wall-clock reading as seconds since January 1 of year 1. -/
def wallClock (year month day hour min sec : Int) : Int :=
  civilDays year month day * 86400 + (hour * 3600 + min * 60 + sec)

/-- The reading of the clock of `t` on the day `(year, month, day)`. -/
def wallAt (t : Time) (year month day : Int) : Int :=
  wallClock year month day t.Hour t.Minute t.Second

/-- Go's 64-bit counts hold the wall-clock reading `wall` and the instant that shows it
at the offset `o`, with nothing wrapped: the reading is not before January 1 of the
absolute zero year, where the `uint64` count of `Time.abs` starts; taken as Unix
seconds the reading fits an `int64`; and so does the instant, as Unix seconds and as
seconds since year 1. For an offset of less than 250 years the first and the last
condition imply the other two. -/
def inRange (wall o : Int) : Prop :=
  -internalToAbsolute ≤ wall ∧ wall - unixToInternal ≤ omegaSec ∧
  alphaSec ≤ wall - unixToInternal - o ∧ wall - o ≤ omegaSec

instance (wall o : Int) : Decidable (inRange wall o) := by
  unfold inRange; infer_instance

/-- The instant `t` and its wall-clock reading lie within the range of Go's 64-bit
counts. -/
def timeInRange (t : Time) : Prop :=
  inRange (t.sec + t.offset + unixToInternal) t.offset

instance (t : Time) : Decidable (timeInRange t) := by
  unfold timeInRange; infer_instance

/-- The offset that `time.Date` settles on for the wall-clock reading `wall` in the
location `l`: the instant it builds lies that many seconds west of the reading. -/
def dateOffset (l : Location) (wall : Int) : Int :=
  wall - unixToInternal - zoneAdjust l (wall - unixToInternal)

/-- The wall-clock reading `wall` exists in the location `l` with the offset `o`: it
lies within the range of Go's counts, the instant that `time.Date` settles on for it
lies `o` seconds west of it, and `o` is the offset in force at that instant, so that
the instant shows the reading. In a gap of the local clock (clocks put forward) no
instant shows the reading, and this fails for every `o`. -/
def shows (l : Location) (wall o : Int) : Prop :=
  inRange wall o ∧ dateOffset l wall = o ∧ (l.lookup (wall - unixToInternal - o)).1 = o

instance (l : Location) (wall o : Int) : Decidable (shows l wall o) := by
  unfold shows; infer_instance

/-- Friday 2024-03-15, 12:00:00 UTC. -/
def sampleFriday : Time := time.Date 2024 3 15 12 0 0 0 UTC

/-- A recognizer that rejects every phrase; it stands in where the recognizer is
never reached. -/
def rejectAll : Recognizer Unit String :=
  { ToLower := fun s => s, zero := (), Init := fun p => p,
    Parse := fun p => (p, some "syntax error"), Execute := fun p => p }

/-- America/New_York around 2024: UTC-5, UTC-4 from 2024-03-10 07:00 UTC, UTC-5 again
from 2024-11-03 06:00 UTC. -/
def newYork : Location := ⟨-18000, [⟨1710054000, -14400⟩, ⟨1730613600, -18000⟩]⟩

/-- America/Asuncion around 2017: UTC-4, UTC-3 from 2017-10-01 04:00 UTC, when the
local clocks went from midnight to 01:00. -/
def asuncion : Location := ⟨-14400, [⟨1506830400, -10800⟩]⟩

/-- Europe/Berlin around 2019: UTC+1, UTC+2 from 2019-03-31 01:00 UTC, when the local
clocks went from 02:00 to 03:00. -/
def berlin : Location := ⟨3600, [⟨1553994000, 7200⟩]⟩

/-- Atlantic/Azores around 2024: UTC-1, UTC+0 from 2024-03-31 01:00 UTC, when the local
clocks went from midnight to 01:00. -/
def azores : Location := ⟨-3600, [⟨1711846800, 0⟩]⟩

/-- Friday 2024-03-15, 12:00:00 in New York, five days after the clocks went forward:
UTC-4 there, UTC-5 on the first of the month. -/
def marchNoon : Time := time.Date 2024 3 15 12 0 0 0 newYork

end date

namespace time

/-- The method `Time.In`: the same instant in another location. -/
def Time.In (t : Time) (loc : time.Location) : Time := { t with loc := loc }

/-- The method `Time.UTC`: the same instant in the location `time.UTC`. -/
def Time.UTC (t : Time) : Time := { t with loc := time.UTC }

end time

namespace date

open time

/-! ## age.go -/

def calculateLeapYearDay : Int := 60

/-- The bounds of a Go `int` on a 64-bit platform (`math.MaxInt`, `math.MinInt`). -/
def MaxInt : Int := 9223372036854775807
def MinInt : Int := -9223372036854775808

/-- The function `IsLeapYear`: true only if the given year contains a leap day. Go's `%`
is the truncated remainder, `Int.tmod`. -/
def IsLeapYear (givenYear : Int) : Bool :=
  if Int.tmod givenYear 400 = 0 then true
  else if Int.tmod givenYear 100 = 0 then false
  else if Int.tmod givenYear 4 = 0 then true
  else false

/-- The function `calculate`. -/
def calculate (startTime endTime : Time) : Int :=
  let startYear := startTime.Year
  let endYear := endTime.Year
  let age := endYear - startYear
  let startYearIsLeapYear := IsLeapYear startYear
  let endYearIsLeapYear := IsLeapYear endYear
  let startYearDay := startTime.YearDay
  let endYearDay := endTime.YearDay
  let startYearDay :=
    if startYearIsLeapYear ∧ ¬ endYearIsLeapYear ∧ startYearDay ≥ calculateLeapYearDay then
      startYearDay - 1
    else if endYearIsLeapYear ∧ ¬ startYearIsLeapYear ∧ endYearDay ≥ calculateLeapYearDay then
      startYearDay + 1
    else startYearDay
  let age := if endYearDay < startYearDay then age - 1 else age
  age

/-- The function `Calculate`: the age between two times, the first one moved to the
location of the second. -/
def Calculate (startTime endTime : Time) : Int :=
  let endLocation := endTime.Location
  let startTime := if endLocation = UTC then startTime.UTC else startTime.In endLocation
  calculate startTime endTime

/-- The loop of `PrevLeapYear`, from its head with the current values of the two named
results: while `foundYear > math.MinInt`, step down and stop at a leap year. -/
def PrevLeapYearLoop (foundYear : Int) (found : Bool) : Int × Bool :=
  if foundYear > MinInt then
    let foundYear := foundYear - 1
    let found := IsLeapYear foundYear
    if found then (foundYear, found) else PrevLeapYearLoop foundYear found
  else (foundYear, found)
termination_by (foundYear - MinInt).toNat
decreasing_by
  simp only [MinInt] at *
  omega

/-- The function `PrevLeapYear`: the previous leap year before a given year, and whether
one was found. -/
def PrevLeapYear (givenYear : Int) : Int × Bool :=
  PrevLeapYearLoop givenYear false

/-- The loop of `NextLeapYear`, from its head with the current values of the two named
results: while `foundYear < math.MaxInt`, step up and stop at a leap year. -/
def NextLeapYearLoop (foundYear : Int) (found : Bool) : Int × Bool :=
  if foundYear < MaxInt then
    let foundYear := foundYear + 1
    let found := IsLeapYear foundYear
    if found then (foundYear, found) else NextLeapYearLoop foundYear found
  else (foundYear, found)
termination_by (MaxInt - foundYear).toNat
decreasing_by
  simp only [MaxInt] at *
  omega

/-- The function `NextLeapYear`: the next leap year after a given year, and whether one
was found. -/
def NextLeapYear (givenYear : Int) : Int × Bool :=
  NextLeapYearLoop givenYear false

/-! ## More values used in the statements below -/

/-- The twelve classification flags, in the order of their declaration. -/
def allFlags : List Int :=
  [ExprTypeDate, ExprTypeTime, ExprTypeNow, ExprTypeRelativeMinutes, ExprTypeRelativeHours,
    ExprTypeRelativeDays, ExprTypeRelativeWeeks, ExprTypeRelativeWeekdays,
    ExprTypeRelativeMonth, ExprTypeRelativeYear, ExprTypeClock12Hour, ExprTypeClock24Hour]

/-- The classification that results from raising the given flags one after the other
(`exprType |= f`) on a fresh classification. -/
def raiseAll (flags : List Int) : Int := flags.foldl Int.lor ExprTypeInvalid

/-- The year in which `nextMonth t month` looks for the month. -/
def nextMonthYear (t : Time) (month : Int) : Int :=
  if month ≤ t.Month then t.Year + 1 else t.Year

/-- The year in which `prevMonth t month` looks for the month. -/
def prevMonthYear (t : Time) (month : Int) : Int :=
  if t.Month ≤ month then t.Year - 1 else t.Year

/-- The order of month and day within a year: `(m1, d1)` comes before `(m2, d2)`. -/
def monthDayBefore (m1 d1 m2 d2 : Int) : Prop := m1 < m2 ∨ (m1 = m2 ∧ d1 < d2)

instance (m1 d1 m2 d2 : Int) : Decidable (monthDayBefore m1 d1 m2 d2) := by
  unfold monthDayBefore; infer_instance

/-- The day of the month that `calculate` compares for the start: 29 February counts as
28 February when the year of the end is not a leap year. -/
def startDayFor (startMonth startDay endYear : Int) : Int :=
  if startMonth = 2 ∧ startDay = 29 ∧ ¬ IsLeapYear endYear then 28 else startDay

/-- Monday 2024-07-15, 12:00:00 in New York, in the summer time of that year. -/
def summerNoon : Time := time.Date 2024 7 15 12 0 0 0 newYork

/-- Tuesday 2023-01-31, 10:00:00 UTC, a day 31 in a year that is not a leap year. -/
def sampleJan31 : Time := time.Date 2023 1 31 10 0 0 0 UTC

end date

namespace time

open date

/-! ## Facts about the calendar arithmetic of package `time` -/

theorem isLeap_iff (y : Int) :
    isLeap y = true ↔ (y % 4 = 0 ∧ (y % 100 ≠ 0 ∨ y % 400 = 0)) := by
  simp [isLeap]

theorem yearDays_succ (y : Int) :
    yearDays (y + 1) = yearDays y + 365 + (if isLeap y then 1 else 0) := by
  unfold yearDays
  split <;> rename_i h <;> rw [isLeap_iff] at h <;> omega

theorem yearDays_mono (y z : Int) (h : y ≤ z) : yearDays y ≤ yearDays z := by
  unfold yearDays
  omega

/-- Inside the range of its `uint64` year count, `daysSinceEpoch` counts the days of
the proleptic Gregorian calendar. -/
theorem daysSinceEpoch_eq (y : Int) (h0 : absoluteZeroYear ≤ y)
    (h1 : y < absoluteZeroYear + 18446744073709551616) :
    daysSinceEpoch y = yearDays y := by
  unfold absoluteZeroYear at h0 h1
  have e : (y - absoluteZeroYear) % 18446744073709551616 = y - absoluteZeroYear := by
    unfold absoluteZeroYear
    exact Int.emod_eq_of_lt (by omega) (by omega)
  simp only [daysSinceEpoch, e, yearDays, absoluteZeroYear, daysPer400Years, daysPer100Years,
    daysPer4Years]
  omega

theorem absYearDay_cycles (abs : Int) :
    ∃ a b c e yd : Int, 0 ≤ b ∧ b ≤ 3 ∧ 0 ≤ c ∧ c ≤ 24 ∧ 0 ≤ e ∧ e ≤ 3 ∧ 0 ≤ yd ∧
      yd < 365 + (if e = 3 ∧ (c ≠ 24 ∨ b = 3) then 1 else 0) ∧
      abs / 86400 = 146097 * a + 36524 * b + 1461 * c + 365 * e + yd ∧
      (absYearDay abs).1 = 400 * a + 100 * b + 4 * c + e + 1 ∧
      (absYearDay abs).2 = yd := by
  simp only [absYearDay, secondsPerDay, daysPer400Years, daysPer100Years, daysPer4Years]
  refine ⟨_, _, _, _, _, ?_, ?_, ?_, ?_, ?_, ?_, ?_, ?_, ?_, rfl, rfl⟩
  all_goals omega

theorem yearDays_cycles (a b c e : Int) (hb0 : 0 ≤ b) (hb : b ≤ 3) (hc0 : 0 ≤ c)
    (hc : c ≤ 24) (he0 : 0 ≤ e) (he : e ≤ 3) :
    yearDays (400 * a + 100 * b + 4 * c + e + 1) =
      146097 * a + 36524 * b + 1461 * c + 365 * e := by
  unfold yearDays
  omega

theorem isLeap_cycles (a b c e : Int) (hb0 : 0 ≤ b) (hb : b ≤ 3) (hc0 : 0 ≤ c)
    (hc : c ≤ 24) (he0 : 0 ≤ e) (he : e ≤ 3) :
    isLeap (400 * a + 100 * b + 4 * c + e + 1) = true ↔ (e = 3 ∧ (c ≠ 24 ∨ b = 3)) := by
  rw [isLeap_iff]
  omega

/-- The year found by `absYearDay` starts at most a year's length before the day. -/
theorem absYearDay_spec (abs : Int) :
    yearDays (absYearDay abs).1 + (absYearDay abs).2 = abs / 86400 ∧
    0 ≤ (absYearDay abs).2 ∧
    (absYearDay abs).2 < 365 + (if isLeap (absYearDay abs).1 then 1 else 0) := by
  obtain ⟨a, b, c, e, yd, hb0, hb, hc0, hc, he0, he, hy0, hy, hD, hY, hyd⟩ :=
    absYearDay_cycles abs
  have hdse := yearDays_cycles a b c e hb0 hb hc0 hc he0 he
  have hleap := isLeap_cycles a b c e hb0 hb hc0 hc he0 he
  rw [hY, hyd, hdse]
  refine ⟨by omega, hy0, ?_⟩
  by_cases hl : e = 3 ∧ (c ≠ 24 ∨ b = 3)
  · rw [if_pos (hleap.mpr hl)]; rw [if_pos hl] at hy; exact hy
  · rw [if_neg hl] at hy
    have : ¬ isLeap (400 * a + 100 * b + 4 * c + e + 1) = true := fun h => hl (hleap.mp h)
    rw [if_neg this]; omega

theorem daysBefore_vals :
    daysBefore 0 = 0 ∧ daysBefore 1 = 31 ∧ daysBefore 2 = 59 ∧ daysBefore 3 = 90 ∧
    daysBefore 4 = 120 ∧ daysBefore 5 = 151 ∧ daysBefore 6 = 181 ∧ daysBefore 7 = 212 ∧
    daysBefore 8 = 243 ∧ daysBefore 9 = 273 ∧ daysBefore 10 = 304 ∧ daysBefore 11 = 334 ∧
    daysBefore 12 = 365 := by
  decide

/-- The month and day found by `ydayMonthDay` are a real day of the year and count
back to the day of the year they came from. -/
theorem ydayMonthDay_spec (leap : Bool) (yday : Int) (h0 : 0 ≤ yday)
    (h1 : yday < 365 + (if leap then 1 else 0)) :
    1 ≤ (ydayMonthDay leap yday).1 ∧ (ydayMonthDay leap yday).1 ≤ 12 ∧
    1 ≤ (ydayMonthDay leap yday).2 ∧
    (ydayMonthDay leap yday).2 ≤
      (if (ydayMonthDay leap yday).1 = 2 ∧ leap then 29
       else daysBefore (ydayMonthDay leap yday).1 - daysBefore ((ydayMonthDay leap yday).1 - 1)) ∧
    daysBefore ((ydayMonthDay leap yday).1 - 1) +
      (if leap ∧ (ydayMonthDay leap yday).1 ≥ 3 then 1 else 0) +
      ((ydayMonthDay leap yday).2 - 1) = yday := by
  obtain ⟨d0, d1, d2, d3, d4, d5, d6, d7, d8, d9, d10, d11, d12⟩ := daysBefore_vals
  cases leap
  · simp only [ydayMonthDay, Bool.false_eq_true, false_and, and_false, if_false] at h1 ⊢
    generalize hq : yday / 31 = q
    have hq0 : 0 ≤ q := by omega
    have hq1 : q ≤ 11 := by omega
    interval_cases q <;> simp only [d0, d1, d2, d3, d4, d5, d6, d7, d8, d9, d10, d11, d12,
      Int.reduceAdd, Int.reduceSub, zero_add] <;> split <;> simp <;> omega
  · simp only [ydayMonthDay, true_and, and_true, if_true] at h1 ⊢
    by_cases hl : yday = 31 + 29 - 1
    · rw [if_pos hl]; simp [d1]; omega
    · rw [if_neg hl]
      simp only []
      generalize hday : (if yday > 31 + 29 - 1 then yday - 1 else yday) = day
      have hd : (yday < 59 ∧ day = yday) ∨ (59 < yday ∧ day = yday - 1) := by
        rw [← hday]; split <;> omega
      generalize hq : day / 31 = q
      have hq0 : 0 ≤ q := by omega
      have hq1 : q ≤ 11 := by omega
      interval_cases q <;> simp only [d0, d1, d2, d3, d4, d5, d6, d7, d8, d9, d10, d11, d12,
        Int.reduceAdd, Int.reduceSub, zero_add] <;> split <;> simp <;> omega

/-- Where a day of month `m` lies in its year decides `m`. -/
theorem yday_thresholds (leap : Bool) (m d : Int) (hm1 : 1 ≤ m) (hm2 : m ≤ 12)
    (hd1 : 1 ≤ d)
    (hd2 : d ≤ (if m = 2 ∧ leap then 29 else daysBefore m - daysBefore (m - 1))) :
    let l : Int := if leap then 1 else 0
    let yd := daysBefore (m - 1) + (if leap ∧ m ≥ 3 then 1 else 0) + (d - 1)
    0 ≤ yd ∧ yd < 365 + l ∧
    (yd < 31 ↔ m ≤ 1) ∧ (yd < 59 + l ↔ m ≤ 2) ∧ (yd < 90 + l ↔ m ≤ 3) ∧
    (yd < 120 + l ↔ m ≤ 4) ∧ (yd < 151 + l ↔ m ≤ 5) ∧ (yd < 181 + l ↔ m ≤ 6) ∧
    (yd < 212 + l ↔ m ≤ 7) ∧ (yd < 243 + l ↔ m ≤ 8) ∧ (yd < 273 + l ↔ m ≤ 9) ∧
    (yd < 304 + l ↔ m ≤ 10) ∧ (yd < 334 + l ↔ m ≤ 11) := by
  obtain ⟨d0, d1, d2, d3, d4, d5, d6, d7, d8, d9, d10, d11, d12⟩ := daysBefore_vals
  cases leap <;> interval_cases m <;>
    simp [d0, d1, d2, d3, d4, d5, d6, d7, d8, d9, d10, d11, d12] at hd2 ⊢ <;> omega

/-- Two days of the same year that are equally far into it are the same day. -/
theorem yday_inj (leap : Bool) (m d m' d' : Int) (hm1 : 1 ≤ m) (hm2 : m ≤ 12)
    (hd1 : 1 ≤ d)
    (hd2 : d ≤ (if m = 2 ∧ leap then 29 else daysBefore m - daysBefore (m - 1)))
    (hm1' : 1 ≤ m') (hm2' : m' ≤ 12) (hd1' : 1 ≤ d')
    (hd2' : d' ≤ (if m' = 2 ∧ leap then 29 else daysBefore m' - daysBefore (m' - 1)))
    (h : daysBefore (m - 1) + (if leap ∧ m ≥ 3 then 1 else 0) + (d - 1) =
         daysBefore (m' - 1) + (if leap ∧ m' ≥ 3 then 1 else 0) + (d' - 1)) :
    m = m' ∧ d = d' := by
  have t1 := yday_thresholds leap m d hm1 hm2 hd1 hd2
  have t2 := yday_thresholds leap m' d' hm1' hm2' hd1' hd2'
  simp only [] at t1 t2
  rw [← h] at t2
  have hm : m = m' := by omega
  subst hm
  exact ⟨rfl, by omega⟩


theorem absDate_fields (abs : Int) :
    (absDate abs).1 = (absYearDay abs).1 ∧
    (absDate abs).2.1 = (ydayMonthDay (isLeap (absYearDay abs).1) (absYearDay abs).2).1 ∧
    (absDate abs).2.2.1 = (ydayMonthDay (isLeap (absYearDay abs).1) (absYearDay abs).2).2 ∧
    (absDate abs).2.2.2 = (absYearDay abs).2 :=
  ⟨rfl, rfl, rfl, rfl⟩

/-- What `absDate` returns is a real calendar day, and it is the day that `time.Date`
counts back to the same day number. -/
theorem absDate_valid (abs : Int) :
    1 ≤ (absDate abs).2.1 ∧ (absDate abs).2.1 ≤ 12 ∧ 1 ≤ (absDate abs).2.2.1 ∧
    (absDate abs).2.2.1 ≤ daysIn (absDate abs).2.1 (absDate abs).1 ∧
    civilDays (absDate abs).1 (absDate abs).2.1 (absDate abs).2.2.1 = abs / 86400 ∧
    (absDate abs).2.2.2 = abs / 86400 - yearDays (absDate abs).1 := by
  obtain ⟨e1, e2, e3, e4⟩ := absDate_fields abs
  obtain ⟨hy, hy0, hy1⟩ := absYearDay_spec abs
  obtain ⟨hm1, hm2, hd1, hd2, hyd⟩ :=
    ydayMonthDay_spec (isLeap (absYearDay abs).1) (absYearDay abs).2 hy0 hy1
  rw [e1, e2, e3, e4]
  refine ⟨hm1, hm2, hd1, ?_, ?_, by omega⟩
  · unfold daysIn; exact hd2
  · unfold civilDays; omega

/-- A real calendar day lies within its year. -/
theorem civilDays_bounds (y m d : Int) (hm1 : 1 ≤ m) (hm2 : m ≤ 12) (hd1 : 1 ≤ d)
    (hd2 : d ≤ daysIn m y) :
    yearDays y ≤ civilDays y m d ∧ civilDays y m d < yearDays (y + 1) := by
  unfold daysIn at hd2
  have t := yday_thresholds (isLeap y) m d hm1 hm2 hd1 hd2
  simp only [] at t
  rw [yearDays_succ]
  unfold civilDays
  omega

/-- The day number fixes the calendar day: `absDate` undoes the count of `time.Date`. -/
theorem absDate_of_civil (abs y m d : Int) (hm1 : 1 ≤ m) (hm2 : m ≤ 12) (hd1 : 1 ≤ d)
    (hd2 : d ≤ daysIn m y) (h : abs / 86400 = civilDays y m d) :
    absDate abs = (y, m, d, abs / 86400 - yearDays y) := by
  obtain ⟨gm1, gm2, gd1, gd2, gc, gy⟩ := absDate_valid abs
  obtain ⟨b1, b2⟩ := civilDays_bounds y m d hm1 hm2 hd1 hd2
  obtain ⟨c1, c2⟩ := civilDays_bounds _ _ _ gm1 gm2 gd1 gd2
  have hY : (absDate abs).1 = y := by
    rcases lt_trichotomy (absDate abs).1 y with hlt | heq | hgt
    · have := yearDays_mono ((absDate abs).1 + 1) y (by omega)
      omega
    · exact heq
    · have := yearDays_mono (y + 1) (absDate abs).1 (by omega)
      omega
  rw [hY] at gd2 gc gy
  unfold daysIn at gd2 hd2
  have hinj := yday_inj (isLeap y) (absDate abs).2.1 (absDate abs).2.2.1 m d gm1 gm2 gd1 gd2
    hm1 hm2 hd1 hd2 (by unfold civilDays at gc h; omega)
  obtain ⟨i1, i2⟩ := hinj
  exact Prod.ext hY (Prod.ext i1 (Prod.ext i2 gy))

theorem absClock_spec (abs : Int) :
    0 ≤ (absClock abs).1 ∧ (absClock abs).1 < 24 ∧
    0 ≤ (absClock abs).2.1 ∧ (absClock abs).2.1 < 60 ∧
    0 ≤ (absClock abs).2.2 ∧ (absClock abs).2.2 < 60 ∧
    (absClock abs).1 * 3600 + (absClock abs).2.1 * 60 + (absClock abs).2.2 = abs % 86400 := by
  simp only [absClock, secondsPerDay, secondsPerHour, secondsPerMinute]
  omega

/-- The clock reading is fixed by the second of the day. -/
theorem absClock_of (abs h mi s : Int) (m0 : 0 ≤ mi)
    (m1 : mi < 60) (s0 : 0 ≤ s) (s1 : s < 60) (e : abs % 86400 = h * 3600 + mi * 60 + s) :
    absClock abs = (h, mi, s) := by
  simp only [absClock, secondsPerDay, secondsPerHour, secondsPerMinute, e]
  refine Prod.ext ?_ (Prod.ext ?_ ?_) <;> simp only [] <;> omega

theorem norm_12 (hi lo : Int) : norm hi lo 12 = (hi + lo / 12, lo % 12) := by
  unfold norm
  refine Prod.ext ?_ ?_ <;> simp only [] <;> split <;> split <;> simp only [] <;> omega

theorem norm_24 (hi lo : Int) : norm hi lo 24 = (hi + lo / 24, lo % 24) := by
  unfold norm
  refine Prod.ext ?_ ?_ <;> simp only [] <;> split <;> split <;> simp only [] <;> omega

theorem norm_60 (hi lo : Int) : norm hi lo 60 = (hi + lo / 60, lo % 60) := by
  unfold norm
  refine Prod.ext ?_ ?_ <;> simp only [] <;> split <;> split <;> simp only [] <;> omega

theorem norm_nsec (hi lo : Int) :
    norm hi lo 1000000000 = (hi + lo / 1000000000, lo % 1000000000) := by
  unfold norm
  refine Prod.ext ?_ ?_ <;> simp only [] <;> split <;> split <;> simp only [] <;> omega


/-- The absolute second count that `time.Date` computes from fields whose clock part is
in range, for a year that its `uint64` count holds: only the month can overflow, into
the year. -/
theorem dateAbs_eq (y m d h mi s ns : Int) (h0 : 0 ≤ h) (h1 : h < 24) (m0 : 0 ≤ mi)
    (m1 : mi < 60) (s0 : 0 ≤ s) (s1 : s < 60) (n0 : 0 ≤ ns) (n1 : ns < 1000000000)
    (y0 : absoluteZeroYear ≤ y + (m - 1) / 12)
    (y1 : y + (m - 1) / 12 < absoluteZeroYear + 18446744073709551616) :
    dateAbs y m d h mi s ns =
      (civilDays (y + (m - 1) / 12) ((m - 1) % 12 + 1) d * 86400 + (h * 3600 + mi * 60 + s),
        ns) := by
  have e1 : norm s ns 1000000000 = (s, ns) := by
    rw [norm_nsec]; refine Prod.ext ?_ ?_ <;> simp only [] <;> omega
  have e2 : norm mi s 60 = (mi, s) := by
    rw [norm_60]; refine Prod.ext ?_ ?_ <;> simp only [] <;> omega
  have e3 : norm h mi 60 = (h, mi) := by
    rw [norm_60]; refine Prod.ext ?_ ?_ <;> simp only [] <;> omega
  have e4 : norm d h 24 = (d, h) := by
    rw [norm_24]; refine Prod.ext ?_ ?_ <;> simp only [] <;> omega
  unfold dateAbs
  simp only [e1, e2, e3, e4, norm_12, daysSinceEpoch_eq _ y0 y1]
  refine Prod.ext ?_ rfl
  simp only [civilDays, secondsPerDay, secondsPerHour, secondsPerMinute]
  split <;> omega

/-- The nanoseconds that `time.Date` keeps are those it is given, when these are in
range. -/
theorem dateAbs_nsec (y m d h mi s ns : Int) (n0 : 0 ≤ ns) (n1 : ns < 1000000000) :
    (dateAbs y m d h mi s ns).2 = ns := by
  unfold dateAbs
  simp only [norm_nsec]
  omega

theorem lookup_fixed (l : Location) (h : l.isFixed) (s : Int) :
    l.lookup s = (l.offset0, alphaSec, omegaSec) := by
  unfold Location.isFixed at h
  simp [Location.lookup, h, lookupFrom]

theorem Date_nsec (y m d h mi s ns : Int) (l : Location) (n0 : 0 ≤ ns)
    (n1 : ns < 1000000000) :
    (Date y m d h mi s ns l).Nanosecond = ns := by
  simp only [Time.Nanosecond, Date, dateAbs_nsec y m d h mi s ns n0 n1]
  omega

theorem Date_loc (y m d h mi s ns : Int) (l : Location) :
    (Date y m d h mi s ns l).loc = l := rfl

/-- The result of `time.Date` depends on the fields only through the wall clock they
add up to. -/
theorem Date_congr (y m d h mi s ns y2 m2 d2 h2 mi2 s2 ns2 : Int) (l : Location)
    (e : dateAbs y m d h mi s ns = dateAbs y2 m2 d2 h2 mi2 s2 ns2) :
    Date y m d h mi s ns l = Date y2 m2 d2 h2 mi2 s2 ns2 l := by
  unfold Date
  simp only [e]


theorem daysIn_bounds (m y : Int) (hm1 : 1 ≤ m) (hm2 : m ≤ 12) :
    28 ≤ daysIn m y ∧ daysIn m y ≤ 31 := by
  obtain ⟨d0, d1, d2, d3, d4, d5, d6, d7, d8, d9, d10, d11, d12⟩ := daysBefore_vals
  unfold daysIn
  interval_cases m <;> simp [d0, d1, d2, d3, d4, d5, d6, d7, d8, d9, d10, d11, d12]
  split <;> omega

/-- The length of each month: 31, 30, or 28 and 29 for February. -/
theorem daysIn_eq (m y : Int) (hm1 : 1 ≤ m) (hm2 : m ≤ 12) :
    daysIn m y =
      (if m = 2 then (if isLeap y then 29 else 28)
       else if m = 4 ∨ m = 6 ∨ m = 9 ∨ m = 11 then 30 else 31) := by
  obtain ⟨d0, d1, d2, d3, d4, d5, d6, d7, d8, d9, d10, d11, d12⟩ := daysBefore_vals
  unfold daysIn
  interval_cases m <;>
    simp [d0, d1, d2, d3, d4, d5, d6, d7, d8, d9, d10, d11, d12]

/-- Day 0 of the month after `m` is the last day of `m`. -/
theorem civilDays_day_zero (y m : Int) (hm1 : 1 ≤ m) (hm2 : m ≤ 12) :
    civilDays (y + m / 12) (m % 12 + 1) 0 = civilDays y m (daysIn m y) := by
  obtain ⟨d0, d1, d2, d3, d4, d5, d6, d7, d8, d9, d10, d11, d12⟩ := daysBefore_vals
  have hs := yearDays_succ y
  unfold civilDays daysIn
  interval_cases m <;>
    simp [d0, d1, d2, d3, d4, d5, d6, d7, d8, d9, d10, d11, d12] <;>
    (try rw [hs]) <;> (try split) <;> omega

theorem AddDate_eq (t : Time) (a b c : Int) :
    t.AddDate a b c =
      Date (t.Year + a) (t.Month + b) (t.Day + c) t.Hour t.Minute t.Second t.Nanosecond t.loc :=
  rfl

theorem Time_nsec_range (t : Time) : 0 ≤ t.Nanosecond ∧ t.Nanosecond < 1000000000 := by
  unfold Time.Nanosecond
  have := t.nsec.isLt
  omega

/-- The wall clock of `t` read back through its date and clock fields. -/
theorem Time_abs_fields (t : Time) :
    t.abs = civilDays t.Year t.Month t.Day * 86400 +
      (t.Hour * 3600 + t.Minute * 60 + t.Second) := by
  obtain ⟨_, _, _, _, hc, _⟩ := absDate_valid t.abs
  obtain ⟨_, _, _, _, _, _, hk⟩ := absClock_spec t.abs
  simp only [Time.Year, Time.Month, Time.Day, Time.Hour, Time.Minute, Time.Second]
  omega

theorem wrapInt64_id (x : Int) (h0 : -9223372036854775808 ≤ x)
    (h1 : x ≤ 9223372036854775807) : wrapInt64 x = x := by
  unfold wrapInt64
  omega

/-- The reading that `Time.abs` returns lies in the window of Go's `uint64` count. -/
theorem Time_abs_window (t : Time) :
    -internalToAbsolute ≤ t.abs ∧ t.abs < 18446744073709551616 - internalToAbsolute := by
  unfold Time.abs
  omega

/-- The year of every instant is one that the `uint64` year count of `daysSinceEpoch`
holds. -/
theorem Time_year_range (t : Time) :
    absoluteZeroYear ≤ t.Year ∧ t.Year ≤ 292277026854 := by
  obtain ⟨w0, w1⟩ := Time_abs_window t
  obtain ⟨gm1, gm2, gd1, gd2, gc, _⟩ := absDate_valid t.abs
  obtain ⟨c1, c2⟩ := civilDays_bounds _ _ _ gm1 gm2 gd1 gd2
  have e0 : yearDays absoluteZeroYear = -106751990353932 := by decide
  have e1 : yearDays 292277026855 = 106751991980722 := by decide
  unfold internalToAbsolute at w0 w1
  show absoluteZeroYear ≤ (absDate t.abs).1 ∧ (absDate t.abs).1 ≤ 292277026854
  constructor
  · by_contra hc
    have := yearDays_mono ((absDate t.abs).1 + 1) absoluteZeroYear (by omega)
    omega
  · by_contra hc
    have := yearDays_mono 292277026855 (absDate t.abs).1 (by omega)
    omega

end time

namespace date

open time

/-! ## The range of Go's counts, and clock readings that exist -/

/-- Within the range of Go's counts, the wall clock of an instant is its Unix second
moved by the offset. -/
theorem abs_of_inRange (t : Time) (h : timeInRange t) :
    t.unixSec = t.sec ∧ t.abs = t.sec + t.offset + unixToInternal := by
  unfold timeInRange inRange at h
  obtain ⟨a, b, c, d⟩ := h
  unfold internalToAbsolute unixToInternal omegaSec alphaSec at *
  have hu : t.unixSec = t.sec := wrapInt64_id _ (by omega) (by omega)
  refine ⟨hu, ?_⟩
  unfold Time.abs internalToAbsolute unixToInternal
  rw [hu]
  omega

/-- A day whose wall clock lies in the range of Go's counts is in a year that the
`uint64` year count of `daysSinceEpoch` holds. -/
theorem year_of_wall (y m d c : Int) (hm1 : 1 ≤ m) (hm2 : m ≤ 12) (hd1 : 1 ≤ d)
    (hd2 : d ≤ daysIn m y) (c0 : 0 ≤ c) (c1 : c < 86400)
    (h0 : -internalToAbsolute ≤ civilDays y m d * 86400 + c)
    (h1 : civilDays y m d * 86400 + c - unixToInternal ≤ omegaSec) :
    absoluteZeroYear ≤ y ∧ y < absoluteZeroYear + 18446744073709551616 := by
  obtain ⟨b1, b2⟩ := civilDays_bounds y m d hm1 hm2 hd1 hd2
  have e0 : yearDays absoluteZeroYear = -106751990353932 := by decide
  have e1 : yearDays 292277026855 = 106751991980722 := by decide
  unfold internalToAbsolute at h0
  unfold unixToInternal omegaSec at h1
  have l : absoluteZeroYear ≤ y := by
    by_contra hc
    have := yearDays_mono (y + 1) absoluteZeroYear (by omega)
    omega
  have u : y ≤ 292277026854 := by
    by_contra hc
    have := yearDays_mono 292277026855 y (by omega)
    omega
  refine ⟨l, ?_⟩
  unfold absoluteZeroYear
  omega

/-- Within the range of Go's counts, `time.Date` builds the instant that its zone
adjustment settles on for the wall clock asked for, when the fields name a real day
and time. -/
theorem Date_sec (l : Location) (y m d h mi s ns : Int)
    (hr : inRange (wallClock y m d h mi s) (dateOffset l (wallClock y m d h mi s)))
    (hm1 : 1 ≤ m) (hm2 : m ≤ 12) (hd1 : 1 ≤ d) (hd2 : d ≤ daysIn m y)
    (h0 : 0 ≤ h) (h1 : h < 24) (m0 : 0 ≤ mi) (m1 : mi < 60) (s0 : 0 ≤ s) (s1 : s < 60)
    (n0 : 0 ≤ ns) (n1 : ns < 1000000000) :
    (Date y m d h mi s ns l).sec =
      wallClock y m d h mi s - unixToInternal - dateOffset l (wallClock y m d h mi s) ∧
    (Date y m d h mi s ns l).unixSec = (Date y m d h mi s ns l).sec := by
  have hw : wallClock y m d h mi s = civilDays y m d * 86400 + (h * 3600 + mi * 60 + s) := rfl
  obtain ⟨r1, r2, r3, r4⟩ := hr
  obtain ⟨y0, y1⟩ := year_of_wall y m d (h * 3600 + mi * 60 + s) hm1 hm2 hd1 hd2 (by omega)
    (by omega) (by rw [← hw]; exact r1) (by rw [← hw]; exact r2)
  have hda : (dateAbs y m d h mi s ns).1 = wallClock y m d h mi s := by
    have e1 : (m - 1) / 12 = 0 := by omega
    have e2 : (m - 1) % 12 + 1 = m := by omega
    rw [dateAbs_eq y m d h mi s ns h0 h1 m0 m1 s0 s1 n0 n1 (by rw [e1]; omega)
      (by rw [e1]; omega)]
    simp only [e1, e2, add_zero]
    rfl
  have hz : zoneAdjust l (wallClock y m d h mi s - unixToInternal) =
      wallClock y m d h mi s - unixToInternal - dateOffset l (wallClock y m d h mi s) := by
    unfold dateOffset; omega
  generalize dateOffset l (wallClock y m d h mi s) = a at r3 r4 hz ⊢
  generalize wallClock y m d h mi s = w at r1 r2 r3 r4 hz hda ⊢
  unfold internalToAbsolute at r1
  unfold omegaSec at r2 r4
  unfold alphaSec at r3
  have hsec : (Date y m d h mi s ns l).sec = w - unixToInternal - a := by
    show wrapInt64 (zoneAdjust l (wrapInt64 ((dateAbs y m d h mi s ns).1 - unixToInternal)) +
      unixToInternal) - unixToInternal = _
    rw [hda, wrapInt64_id (w - unixToInternal) (by unfold unixToInternal; omega)
      (by unfold unixToInternal at r2 ⊢; omega), hz,
      wrapInt64_id _ (by unfold unixToInternal at r3 ⊢; omega) (by omega)]
    omega
  refine ⟨hsec, ?_⟩
  unfold Time.unixSec
  rw [hsec]
  exact wrapInt64_id _ (by omega) (by unfold unixToInternal; omega)

/-- Where the wall clock asked for exists in the location with the offset `o`,
`time.Date` builds the instant that shows it, when the fields name a real day and
time. -/
theorem Date_shows (l : Location) (y m d h mi s ns o : Int)
    (hs : shows l (wallClock y m d h mi s) o)
    (hm1 : 1 ≤ m) (hm2 : m ≤ 12) (hd1 : 1 ≤ d) (hd2 : d ≤ daysIn m y)
    (h0 : 0 ≤ h) (h1 : h < 24) (m0 : 0 ≤ mi) (m1 : mi < 60) (s0 : 0 ≤ s) (s1 : s < 60)
    (n0 : 0 ≤ ns) (n1 : ns < 1000000000) :
    (Date y m d h mi s ns l).Date = (y, m, d) ∧
    (Date y m d h mi s ns l).Clock = (h, mi, s) ∧
    (Date y m d h mi s ns l).Nanosecond = ns ∧
    (Date y m d h mi s ns l).loc = l ∧
    (Date y m d h mi s ns l).sec = wallClock y m d h mi s - unixToInternal - o ∧
    (Date y m d h mi s ns l).offset = o ∧
    (Date y m d h mi s ns l).abs = wallClock y m d h mi s ∧
    timeInRange (Date y m d h mi s ns l) := by
  obtain ⟨hr, hz, hl⟩ := hs
  have hr2 := hr
  rw [← hz] at hr2
  obtain ⟨hsec, hu⟩ := Date_sec l y m d h mi s ns hr2 hm1 hm2 hd1 hd2 h0 h1 m0 m1 s0 s1 n0 n1
  rw [hz] at hsec
  have hoff : (Date y m d h mi s ns l).offset = o := by
    show (l.lookup (Date y m d h mi s ns l).unixSec).1 = o
    rw [hu, hsec]; exact hl
  have hw : wallClock y m d h mi s = civilDays y m d * 86400 + (h * 3600 + mi * 60 + s) := rfl
  have hin : timeInRange (Date y m d h mi s ns l) := by
    unfold timeInRange
    rw [hsec, hoff]
    have e : wallClock y m d h mi s - unixToInternal - o + o + unixToInternal =
        wallClock y m d h mi s := by omega
    rw [e]; exact hr
  have ha : (Date y m d h mi s ns l).abs = wallClock y m d h mi s := by
    rw [(abs_of_inRange _ hin).2, hsec, hoff]; omega
  refine ⟨?_, ?_, Date_nsec y m d h mi s ns l n0 n1, rfl, hsec, hoff, ha, hin⟩
  · unfold Time.Date
    rw [absDate_of_civil _ y m d hm1 hm2 hd1 hd2 (by rw [ha, hw]; omega)]
  · unfold Time.Clock
    rw [absClock_of _ h mi s m0 m1 s0 s1 (by rw [ha, hw]; omega)]

/-- In a location whose offset never changes, every reading within the range of Go's
counts exists. -/
theorem shows_of_fixed (l : Location) (hf : l.isFixed) (wall : Int)
    (hr : inRange wall l.offset0) : shows l wall l.offset0 := by
  refine ⟨hr, ?_, ?_⟩
  · obtain ⟨r1, r2, r3, r4⟩ := hr
    unfold internalToAbsolute at r1
    unfold omegaSec at r2 r4
    unfold alphaSec at r3
    unfold dateOffset zoneAdjust
    simp only [lookup_fixed l hf, ite_self]
    by_cases ho : l.offset0 = 0
    · simp [ho]
    · rw [if_pos ho, wrapInt64_id _ (by omega) (by unfold unixToInternal; omega)]
      omega
  · rw [lookup_fixed l hf]

/-! ## Weekday navigation -/

/-- C1 fails on the code: in New York on Sunday 2024-11-03 at 00:30, the day the clocks
go back and the day is 25 hours long, `nextWeekday` to Monday adds 24 hours and lands
on Sunday 23:30, not on a Monday. -/
theorem nextWeekday_on_long_day :
    (Date 2024 11 3 0 30 0 0 newYork).Weekday = 0 ∧
    (nextWeekday (Date 2024 11 3 0 30 0 0 newYork) 1).Date = (2024, 11, 3) ∧
    (nextWeekday (Date 2024 11 3 0 30 0 0 newYork) 1).Clock = (23, 30, 0) ∧
    (nextWeekday (Date 2024 11 3 0 30 0 0 newYork) 1).sec =
      (Date 2024 11 3 0 30 0 0 newYork).sec + 86400 ∧
    (nextWeekday (Date 2024 11 3 0 30 0 0 newYork) 1).Weekday = 0 ∧
    ¬ ((nextWeekday (Date 2024 11 3 0 30 0 0 newYork) 1).Weekday = 1) := by
  decide

/-- C2 fails on the code: in New York on Monday 2024-03-11 at 00:30, the day after the
clocks went forward and Sunday was 23 hours long, `prevWeekday` to Sunday subtracts 24
hours and lands on Saturday 2024-03-09 23:30, not on a Sunday. -/
theorem prevWeekday_after_short_day :
    (Date 2024 3 11 0 30 0 0 newYork).Weekday = 1 ∧
    (prevWeekday (Date 2024 3 11 0 30 0 0 newYork) 0).Date = (2024, 3, 9) ∧
    (prevWeekday (Date 2024 3 11 0 30 0 0 newYork) 0).Clock = (23, 30, 0) ∧
    (prevWeekday (Date 2024 3 11 0 30 0 0 newYork) 0).sec =
      (Date 2024 3 11 0 30 0 0 newYork).sec - 86400 ∧
    (prevWeekday (Date 2024 3 11 0 30 0 0 newYork) 0).Weekday = 6 ∧
    ¬ ((prevWeekday (Date 2024 3 11 0 30 0 0 newYork) 0).Weekday = 0) := by
  decide

/-! ## Month boundaries and day truncation -/

theorem Time_fields_valid (t : Time) :
    1 ≤ t.Month ∧ t.Month ≤ 12 ∧ 1 ≤ t.Day ∧ t.Day ≤ daysIn t.Month t.Year ∧
    0 ≤ t.Hour ∧ t.Hour < 24 ∧ 0 ≤ t.Minute ∧ t.Minute < 60 ∧
    0 ≤ t.Second ∧ t.Second < 60 := by
  obtain ⟨a1, a2, a3, a4, _, _⟩ := absDate_valid t.abs
  obtain ⟨b1, b2, b3, b4, b5, b6, _⟩ := absClock_spec t.abs
  exact ⟨a1, a2, a3, a4, b1, b2, b3, b4, b5, b6⟩

theorem civilDays_day (y m d e : Int) : civilDays y m d = civilDays y m e + (d - e) := by
  unfold civilDays
  omega

theorem nsec_eq_of (t u : Time) (h : u.Nanosecond = t.Nanosecond) : u.nsec = t.nsec := by
  unfold Time.Nanosecond at h
  apply Fin.ext
  omega

theorem triple_inj {a b c x y z : Int} (h : (a, b, c) = (x, y, z)) :
    a = x ∧ b = y ∧ c = z := by
  obtain ⟨h1, h2⟩ := Prod.mk.inj h
  obtain ⟨h3, h4⟩ := Prod.mk.inj h2
  exact ⟨h1, h3, h4⟩

theorem Date_parts (t : Time) : t.Date = (t.Year, t.Month, t.Day) := rfl

theorem Clock_parts (t : Time) : t.Clock = (t.Hour, t.Minute, t.Second) := rfl

theorem BeginningOfMonth_eq_Date (t : Time) :
    BeginningOfMonth t =
      Date t.Year t.Month 1 t.Hour t.Minute t.Second t.Nanosecond t.loc := by
  unfold BeginningOfMonth
  rw [AddDate_eq]
  congr 1 <;> omega

theorem EndOfMonth_eq_Date (t : Time) :
    EndOfMonth t =
      Date t.Year t.Month (daysIn t.Month t.Year) t.Hour t.Minute t.Second t.Nanosecond
        t.loc := by
  obtain ⟨a1, a2, a3, a4, b1, b2, b3, b4, b5, b6⟩ := Time_fields_valid t
  obtain ⟨n0, n1⟩ := Time_nsec_range t
  obtain ⟨y0, y1⟩ := Time_year_range t
  unfold absoluteZeroYear at y0
  have hE : EndOfMonth t =
      Date t.Year (t.Month + 1) 0 t.Hour t.Minute t.Second t.Nanosecond t.loc := by
    unfold EndOfMonth
    rw [AddDate_eq]
    congr 1 <;> omega
  rw [hE]
  apply Date_congr
  rw [dateAbs_eq _ _ _ _ _ _ _ b1 b2 b3 b4 b5 b6 n0 n1 (by unfold absoluteZeroYear; omega)
      (by unfold absoluteZeroYear; omega),
    dateAbs_eq _ _ _ _ _ _ _ b1 b2 b3 b4 b5 b6 n0 n1 (by unfold absoluteZeroYear; omega)
      (by unfold absoluteZeroYear; omega)]
  have e1 : (t.Month - 1) / 12 = 0 := by omega
  have e2 : (t.Month - 1) % 12 + 1 = t.Month := by omega
  simp only [add_sub_cancel_right, e1, e2, add_zero]
  rw [civilDays_day_zero _ _ a1 a2]

/-- The seconds between `t` and the instant that `time.Date` builds for the reading of
the clock of `t` on another day of its month, within the range of Go's counts. -/
theorem Date_same_month (t : Time) (d : Int) (ht : timeInRange t) (hd1 : 1 ≤ d)
    (hd2 : d ≤ daysIn t.Month t.Year)
    (hr : inRange (wallAt t t.Year t.Month d) (dateOffset t.loc (wallAt t t.Year t.Month d))) :
    (Date t.Year t.Month d t.Hour t.Minute t.Second t.Nanosecond t.loc).sec - t.sec =
      86400 * (d - t.Day) - (dateOffset t.loc (wallAt t t.Year t.Month d) - t.offset) ∧
    (Date t.Year t.Month d t.Hour t.Minute t.Second t.Nanosecond t.loc).nsec = t.nsec := by
  obtain ⟨a1, a2, a3, a4, b1, b2, b3, b4, b5, b6⟩ := Time_fields_valid t
  obtain ⟨n0, n1⟩ := Time_nsec_range t
  obtain ⟨hsec, _⟩ := Date_sec t.loc t.Year t.Month d t.Hour t.Minute t.Second t.Nanosecond hr
    a1 a2 hd1 hd2 b1 b2 b3 b4 b5 b6 n0 n1
  have e3 := Time_abs_fields t
  rw [(abs_of_inRange t ht).2, civilDays_day t.Year t.Month t.Day d] at e3
  have hw : wallClock t.Year t.Month d t.Hour t.Minute t.Second =
      civilDays t.Year t.Month d * 86400 + (t.Hour * 3600 + t.Minute * 60 + t.Second) := rfl
  have hwa : wallAt t t.Year t.Month d = wallClock t.Year t.Month d t.Hour t.Minute t.Second :=
    rfl
  refine ⟨?_, nsec_eq_of _ _ (Date_nsec _ _ _ _ _ _ _ _ n0 n1)⟩
  rw [hsec, hwa, hw]
  omega

/-- C5 (amended): for every timestamp `t` such that `t` and the readings of its clock on
day 1 and on the last day of its month lie within the range of Go's 64-bit counts:
`BeginningOfMonth t ≤ t` exactly when the offset at `t` exceeds the offset that
`time.Date` applies to the day-1 reading by at most the `D - 1` days moved back, and
`t ≤ EndOfMonth t` exactly when the offset that `time.Date` applies to the last-day
reading exceeds the offset at `t` by at most the `L - D` days moved on (`D` the day of
`t`, `L` the length of its month). Both hold when these offsets are that of `t`, and
when they differ from it by at most a day and `t` is not on day 1, respectively not on
the last day. `BeginningOfMonth t` falls on day 1 of the year and month of `t` whenever
the clock reading of `t` exists on that day in its location (`shows`). -/
theorem BeginningOfMonth_le_EndOfMonth (t : Time) (ht : timeInRange t)
    (hb : inRange (wallAt t t.Year t.Month 1) (dateOffset t.loc (wallAt t t.Year t.Month 1)))
    (he : inRange (wallAt t t.Year t.Month (daysIn t.Month t.Year))
      (dateOffset t.loc (wallAt t t.Year t.Month (daysIn t.Month t.Year)))) :
    (¬ (BeginningOfMonth t).After t ↔
      t.offset - dateOffset t.loc (wallAt t t.Year t.Month 1) ≤ 86400 * (t.Day - 1)) ∧
    (¬ (EndOfMonth t).Before t ↔
      dateOffset t.loc (wallAt t t.Year t.Month (daysIn t.Month t.Year)) - t.offset ≤
        86400 * (daysIn t.Month t.Year - t.Day)) ∧
    (dateOffset t.loc (wallAt t t.Year t.Month 1) = t.offset →
      ¬ (BeginningOfMonth t).After t) ∧
    (dateOffset t.loc (wallAt t t.Year t.Month (daysIn t.Month t.Year)) = t.offset →
      ¬ (EndOfMonth t).Before t) ∧
    (2 ≤ t.Day → t.offset - dateOffset t.loc (wallAt t t.Year t.Month 1) ≤ 86400 →
      ¬ (BeginningOfMonth t).After t) ∧
    (t.Day < daysIn t.Month t.Year →
      dateOffset t.loc (wallAt t t.Year t.Month (daysIn t.Month t.Year)) - t.offset ≤ 86400 →
      ¬ (EndOfMonth t).Before t) ∧
    (shows t.loc (wallAt t t.Year t.Month 1) (dateOffset t.loc (wallAt t t.Year t.Month 1)) →
      (BeginningOfMonth t).Year = t.Year ∧ (BeginningOfMonth t).Month = t.Month ∧
      (BeginningOfMonth t).Day = 1) := by
  obtain ⟨a1, a2, a3, a4, b1, b2, b3, b4, b5, b6⟩ := Time_fields_valid t
  obtain ⟨n0, n1⟩ := Time_nsec_range t
  obtain ⟨l28, l31⟩ := daysIn_bounds t.Month t.Year a1 a2
  obtain ⟨sb, nb⟩ := Date_same_month t 1 ht (le_refl 1) (by omega) hb
  obtain ⟨se, ne⟩ := Date_same_month t (daysIn t.Month t.Year) ht (by omega) (le_refl _) he
  rw [← BeginningOfMonth_eq_Date] at sb nb
  rw [← EndOfMonth_eq_Date] at se ne
  have hB : ¬ (BeginningOfMonth t).After t ↔
      t.offset - dateOffset t.loc (wallAt t t.Year t.Month 1) ≤ 86400 * (t.Day - 1) := by
    unfold Time.After Time.Before
    rw [nb]
    omega
  have hE : ¬ (EndOfMonth t).Before t ↔
      dateOffset t.loc (wallAt t t.Year t.Month (daysIn t.Month t.Year)) - t.offset ≤
        86400 * (daysIn t.Month t.Year - t.Day) := by
    unfold Time.Before
    rw [ne]
    omega
  refine ⟨hB, hE, ?_, ?_, ?_, ?_, ?_⟩
  · intro h; rw [hB]; omega
  · intro h; rw [hE]; omega
  · intro h2 h; rw [hB]; omega
  · intro h2 h; rw [hE]; omega
  · intro hs
    obtain ⟨f1, _⟩ := Date_shows t.loc t.Year t.Month 1 t.Hour t.Minute t.Second t.Nanosecond _
      hs a1 a2 (le_refl 1) (by omega) b1 b2 b3 b4 b5 b6 n0 n1
    rw [← BeginningOfMonth_eq_Date, Date_parts] at f1
    exact triple_inj f1

/-- C5, the amended statement at Friday 2024-03-15 12:00 in New York, where the offset
is UTC-4 on the 15th and the 31st and UTC-5 on the 1st. -/
theorem BeginningOfMonth_le_EndOfMonth_witness :
    timeInRange marchNoon ∧
    inRange (wallAt marchNoon marchNoon.Year marchNoon.Month 1)
      (dateOffset marchNoon.loc (wallAt marchNoon marchNoon.Year marchNoon.Month 1)) ∧
    inRange (wallAt marchNoon marchNoon.Year marchNoon.Month
        (daysIn marchNoon.Month marchNoon.Year))
      (dateOffset marchNoon.loc (wallAt marchNoon marchNoon.Year marchNoon.Month
        (daysIn marchNoon.Month marchNoon.Year))) ∧
    dateOffset marchNoon.loc (wallAt marchNoon marchNoon.Year marchNoon.Month 1) = -18000 ∧
    marchNoon.offset = -14400 ∧
    ¬ (BeginningOfMonth marchNoon).After marchNoon ∧
    ¬ (EndOfMonth marchNoon).Before marchNoon ∧
    (BeginningOfMonth marchNoon).Year = marchNoon.Year ∧
    (BeginningOfMonth marchNoon).Month = marchNoon.Month ∧
    (BeginningOfMonth marchNoon).Day = 1 :=
  ⟨by decide, by decide, by decide, by decide, by decide,
    (BeginningOfMonth_le_EndOfMonth marchNoon (by decide) (by decide) (by decide)).2.2.2.2.1
      (by decide) (by decide),
    (BeginningOfMonth_le_EndOfMonth marchNoon (by decide) (by decide) (by decide)).2.2.2.1
      (by decide),
    (BeginningOfMonth_le_EndOfMonth marchNoon (by decide) (by decide) (by decide)).2.2.2.2.2.2
      (by decide)⟩

/-- C5 as stated fails. In Asuncion the clocks went from 00:00 to 01:00 on 2017-10-01, so
00:30 does not exist on that day; for `t` = 2017-10-15 00:30 `BeginningOfMonth` lands
on 2017-09-30 23:30, in the month before. And at the end of Go's range, for `t` =
292277024627-12-06 00:00 UTC, the seconds of `EndOfMonth t` wrap and it compares as
before `t`. -/
theorem BeginningOfMonth_counterexample :
    (Date 2017 10 15 0 30 0 0 asuncion).Date = (2017, 10, 15) ∧
    (BeginningOfMonth (Date 2017 10 15 0 30 0 0 asuncion)).Date = (2017, 9, 30) ∧
    ¬ ((BeginningOfMonth (Date 2017 10 15 0 30 0 0 asuncion)).Day = 1) ∧
    ¬ ((BeginningOfMonth (Date 2017 10 15 0 30 0 0 asuncion)).Month =
        (Date 2017 10 15 0 30 0 0 asuncion).Month) ∧
    (Date 292277024627 12 6 0 0 0 0 UTC).Date = (292277024627, 12, 6) ∧
    (EndOfMonth (Date 292277024627 12 6 0 0 0 0 UTC)).Before
      (Date 292277024627 12 6 0 0 0 0 UTC) := by
  decide

/-- C6 (amended): for every timestamp `t`, `EndOfMonth t` lies in the year and month of
`t` on the last day of that month (31, 30, or 28 and 29 for February by the leap-year
rule) and has the hour, minute and second of `t`, whenever the clock reading of `t`
exists on that day in its location, within the range of Go's counts (`shows`);
`BeginningOfMonth t` has the hour, minute and second of `t` whenever the reading exists
on day 1; and both always have the nanosecond and the location of `t`. -/
theorem EndOfMonth_last_day (t : Time) (o1 o2 : Int) :
    (shows t.loc (wallAt t t.Year t.Month (daysIn t.Month t.Year)) o2 →
      (EndOfMonth t).Year = t.Year ∧ (EndOfMonth t).Month = t.Month ∧
      (EndOfMonth t).Day = daysIn t.Month t.Year ∧
      (EndOfMonth t).Day =
        (if t.Month = 2 then
          (if t.Year % 4 = 0 ∧ (t.Year % 100 ≠ 0 ∨ t.Year % 400 = 0) then 29 else 28)
         else if t.Month = 4 ∨ t.Month = 6 ∨ t.Month = 9 ∨ t.Month = 11 then 30 else 31) ∧
      (EndOfMonth t).Hour = t.Hour ∧ (EndOfMonth t).Minute = t.Minute ∧
      (EndOfMonth t).Second = t.Second ∧ (EndOfMonth t).offset = o2) ∧
    (shows t.loc (wallAt t t.Year t.Month 1) o1 →
      (BeginningOfMonth t).Hour = t.Hour ∧ (BeginningOfMonth t).Minute = t.Minute ∧
      (BeginningOfMonth t).Second = t.Second ∧ (BeginningOfMonth t).offset = o1) ∧
    (EndOfMonth t).nsec = t.nsec ∧ (EndOfMonth t).loc = t.loc ∧
    (BeginningOfMonth t).nsec = t.nsec ∧ (BeginningOfMonth t).loc = t.loc := by
  obtain ⟨a1, a2, a3, a4, b1, b2, b3, b4, b5, b6⟩ := Time_fields_valid t
  obtain ⟨n0, n1⟩ := Time_nsec_range t
  obtain ⟨l28, l31⟩ := daysIn_bounds t.Month t.Year a1 a2
  refine ⟨?_, ?_, ?_, ?_, ?_, ?_⟩
  · intro hs
    obtain ⟨e1, e2, _, _, _, e6, _⟩ := Date_shows t.loc t.Year t.Month (daysIn t.Month t.Year)
      t.Hour t.Minute t.Second t.Nanosecond o2 hs a1 a2 (by omega) (le_refl _) b1 b2 b3 b4 b5
      b6 n0 n1
    rw [← EndOfMonth_eq_Date] at e1 e2 e6
    rw [Date_parts] at e1
    rw [Clock_parts] at e2
    obtain ⟨y1, y2, y3⟩ := triple_inj e1
    obtain ⟨c1, c2, c3⟩ := triple_inj e2
    refine ⟨y1, y2, y3, ?_, c1, c2, c3, e6⟩
    rw [y3, daysIn_eq _ _ a1 a2]
    simp only [isLeap_iff]
  · intro hs
    obtain ⟨_, e2, _, _, _, e6, _⟩ := Date_shows t.loc t.Year t.Month 1
      t.Hour t.Minute t.Second t.Nanosecond o1 hs a1 a2 (le_refl 1) (by omega) b1 b2 b3 b4 b5
      b6 n0 n1
    rw [← BeginningOfMonth_eq_Date] at e2 e6
    rw [Clock_parts] at e2
    obtain ⟨c1, c2, c3⟩ := triple_inj e2
    exact ⟨c1, c2, c3, e6⟩
  · rw [EndOfMonth_eq_Date]
    exact nsec_eq_of _ _ (Date_nsec _ _ _ _ _ _ _ _ n0 n1)
  · rw [EndOfMonth_eq_Date]; rfl
  · rw [BeginningOfMonth_eq_Date]
    exact nsec_eq_of _ _ (Date_nsec _ _ _ _ _ _ _ _ n0 n1)
  · rw [BeginningOfMonth_eq_Date]; rfl

/-- C6, the amended statement at Friday 2024-03-15 12:00 in New York: the reading 12:00
exists on the 31st with UTC-4 and on the 1st with UTC-5. -/
theorem EndOfMonth_last_day_witness :
    shows marchNoon.loc
      (wallAt marchNoon marchNoon.Year marchNoon.Month (daysIn marchNoon.Month marchNoon.Year))
      (-14400) ∧
    shows marchNoon.loc (wallAt marchNoon marchNoon.Year marchNoon.Month 1) (-18000) ∧
    ((EndOfMonth marchNoon).Year = marchNoon.Year ∧
      (EndOfMonth marchNoon).Month = marchNoon.Month ∧
      (EndOfMonth marchNoon).Day = daysIn marchNoon.Month marchNoon.Year ∧
      (EndOfMonth marchNoon).Day =
        (if marchNoon.Month = 2 then
          (if marchNoon.Year % 4 = 0 ∧ (marchNoon.Year % 100 ≠ 0 ∨ marchNoon.Year % 400 = 0)
            then 29 else 28)
         else if marchNoon.Month = 4 ∨ marchNoon.Month = 6 ∨ marchNoon.Month = 9 ∨
            marchNoon.Month = 11 then 30 else 31) ∧
      (EndOfMonth marchNoon).Hour = marchNoon.Hour ∧
      (EndOfMonth marchNoon).Minute = marchNoon.Minute ∧
      (EndOfMonth marchNoon).Second = marchNoon.Second ∧
      (EndOfMonth marchNoon).offset = -14400) ∧
    ((BeginningOfMonth marchNoon).Hour = marchNoon.Hour ∧
      (BeginningOfMonth marchNoon).Minute = marchNoon.Minute ∧
      (BeginningOfMonth marchNoon).Second = marchNoon.Second ∧
      (BeginningOfMonth marchNoon).offset = -18000) :=
  ⟨by decide, by decide,
    (EndOfMonth_last_day marchNoon (-18000) (-14400)).1 (by decide),
    (EndOfMonth_last_day marchNoon (-18000) (-14400)).2.1 (by decide)⟩

/-- C6 as stated fails: in Berlin the clocks went from 02:00 to 03:00 on 2019-03-31, so
02:30 does not exist on that day; for `t` = 2019-03-15 02:30 `EndOfMonth` is
2019-03-31 03:30, and the hour of `t` is not kept. -/
theorem EndOfMonth_counterexample :
    (Date 2019 3 15 2 30 0 0 berlin).Date = (2019, 3, 15) ∧
    (Date 2019 3 15 2 30 0 0 berlin).Clock = (2, 30, 0) ∧
    (EndOfMonth (Date 2019 3 15 2 30 0 0 berlin)).Date = (2019, 3, 31) ∧
    (EndOfMonth (Date 2019 3 15 2 30 0 0 berlin)).Clock = (3, 30, 0) ∧
    ¬ ((EndOfMonth (Date 2019 3 15 2 30 0 0 berlin)).Hour =
        (Date 2019 3 15 2 30 0 0 berlin).Hour) := by
  decide

/-- C7 (amended): `BeginningOfMonth (BeginningOfMonth t) = BeginningOfMonth t` for every
timestamp `t` whose clock reading exists on day 1 of its month in its location, within
the range of Go's counts (`shows`). -/
theorem BeginningOfMonth_idempotent (t : Time) (o : Int)
    (hs : shows t.loc (wallAt t t.Year t.Month 1) o) :
    BeginningOfMonth (BeginningOfMonth t) = BeginningOfMonth t := by
  obtain ⟨a1, a2, a3, a4, b1, b2, b3, b4, b5, b6⟩ := Time_fields_valid t
  obtain ⟨n0, n1⟩ := Time_nsec_range t
  obtain ⟨l28, l31⟩ := daysIn_bounds t.Month t.Year a1 a2
  obtain ⟨e1, e2, e3, e4, _⟩ := Date_shows t.loc t.Year t.Month 1
    t.Hour t.Minute t.Second t.Nanosecond o hs a1 a2 (le_refl 1) (by omega) b1 b2 b3 b4 b5
    b6 n0 n1
  rw [← BeginningOfMonth_eq_Date] at e1 e2 e3 e4
  rw [Date_parts] at e1
  rw [Clock_parts] at e2
  obtain ⟨y1, y2, _⟩ := triple_inj e1
  obtain ⟨c1, c2, c3⟩ := triple_inj e2
  rw [BeginningOfMonth_eq_Date (BeginningOfMonth t), y1, y2, c1, c2, c3, e3, e4]
  exact (BeginningOfMonth_eq_Date t).symm

/-- C7, the amended statement at Friday 2024-03-15 12:00 in New York. -/
theorem BeginningOfMonth_idempotent_witness :
    shows marchNoon.loc (wallAt marchNoon marchNoon.Year marchNoon.Month 1) (-18000) ∧
    BeginningOfMonth (BeginningOfMonth marchNoon) = BeginningOfMonth marchNoon :=
  ⟨by decide, BeginningOfMonth_idempotent marchNoon (-18000) (by decide)⟩

/-- C7 as stated fails: in Asuncion, for `t` = 2017-10-15 00:30, `BeginningOfMonth t` is
2017-09-30 23:30 (00:30 does not exist on 2017-10-01), and applying `BeginningOfMonth`
again gives 2017-09-01 23:30. -/
theorem BeginningOfMonth_idempotent_counterexample :
    (BeginningOfMonth (Date 2017 10 15 0 30 0 0 asuncion)).Date = (2017, 9, 30) ∧
    (BeginningOfMonth (BeginningOfMonth (Date 2017 10 15 0 30 0 0 asuncion))).Date =
      (2017, 9, 1) ∧
    BeginningOfMonth (BeginningOfMonth (Date 2017 10 15 0 30 0 0 asuncion)) ≠
      BeginningOfMonth (Date 2017 10 15 0 30 0 0 asuncion) := by
  have h1 : (BeginningOfMonth (Date 2017 10 15 0 30 0 0 asuncion)).Date = (2017, 9, 30) := by
    set_option maxRecDepth 4096 in decide
  have h2 : (BeginningOfMonth (BeginningOfMonth (Date 2017 10 15 0 30 0 0 asuncion))).Date =
      (2017, 9, 1) := by
    set_option maxRecDepth 4096 in decide
  refine ⟨h1, h2, ?_⟩
  intro h
  rw [h, h1] at h2
  exact absurd h2 (by decide)

/-- C8 fails on the code: in Asuncion midnight did not exist on 2017-10-01 (the clocks
went from 00:00 to 01:00, so the day began at 01:00); for `t` = 2017-10-01 12:30
`truncateDay` is 2017-09-30 23:00, which has neither hour zero nor the day of `t`. -/
theorem truncateDay_without_midnight :
    (Date 2017 10 1 12 30 0 0 asuncion).Date = (2017, 10, 1) ∧
    (truncateDay (Date 2017 10 1 12 30 0 0 asuncion)).Date = (2017, 9, 30) ∧
    (truncateDay (Date 2017 10 1 12 30 0 0 asuncion)).Clock = (23, 0, 0) ∧
    ¬ ((truncateDay (Date 2017 10 1 12 30 0 0 asuncion)).Hour = 0) ∧
    ¬ ((truncateDay (Date 2017 10 1 12 30 0 0 asuncion)).Day =
        (Date 2017 10 1 12 30 0 0 asuncion).Day) ∧
    ¬ ((truncateDay (Date 2017 10 1 12 30 0 0 asuncion)).offset =
        (Date 2017 10 1 12 30 0 0 asuncion).offset) := by
  decide

/-! ## The entry point: shortcut phrases, options and direction -/

/-- C3 (amended): for every reference instant, whatever the recognizer and whatever
options are passed, `ParseNaturalDate` returns no error and the timestamp
`BeginningOfMonth ref` for "first day of the month" and "first day of this month", and
`EndOfMonth ref` for "last day of the month" and "last day of this month"; neither the
options nor the recognizer take part. For a reference on 2024-03-15 these timestamps
fall on 2024-03-01 and 2024-03-31 whenever the clock reading of the reference exists
on that day in its location, within the range of Go's counts (`shows`). -/
theorem ParseNaturalDate_shortcuts {σ ε : Type} (G : Recognizer σ ε) (ref : Time)
    (options : List (OptionFn σ)) (o1 o2 : Int) :
    (ParseNaturalDate G "first day of the month" ref options).map (fun r => (r.1, r.2.2)) =
      Except.ok (BeginningOfMonth ref, none) ∧
    (ParseNaturalDate G "first day of this month" ref options).map (fun r => (r.1, r.2.2)) =
      Except.ok (BeginningOfMonth ref, none) ∧
    (ParseNaturalDate G "last day of the month" ref options).map (fun r => (r.1, r.2.2)) =
      Except.ok (EndOfMonth ref, none) ∧
    (ParseNaturalDate G "last day of this month" ref options).map (fun r => (r.1, r.2.2)) =
      Except.ok (EndOfMonth ref, none) ∧
    (ref.Date = (2024, 3, 15) → shows ref.loc (wallAt ref 2024 3 1) o1 →
      (BeginningOfMonth ref).Date = (2024, 3, 1)) ∧
    (ref.Date = (2024, 3, 15) → shows ref.loc (wallAt ref 2024 3 31) o2 →
      (EndOfMonth ref).Date = (2024, 3, 31)) := by
  obtain ⟨a1, a2, a3, a4, b1, b2, b3, b4, b5, b6⟩ := Time_fields_valid ref
  obtain ⟨n0, n1⟩ := Time_nsec_range ref
  refine ⟨rfl, rfl, rfl, rfl, ?_, ?_⟩
  · intro hd hs
    rw [Date_parts] at hd
    obtain ⟨y1, y2, _⟩ := triple_inj hd
    rw [BeginningOfMonth_eq_Date, y1, y2]
    exact (Date_shows ref.loc 2024 3 1 ref.Hour ref.Minute ref.Second ref.Nanosecond o1 hs
      (by decide) (by decide) (by decide) (by decide) b1 b2 b3 b4 b5 b6 n0 n1).1
  · intro hd hs
    rw [Date_parts] at hd
    obtain ⟨y1, y2, _⟩ := triple_inj hd
    have hl : daysIn 3 2024 = 31 := by decide
    rw [EndOfMonth_eq_Date, y1, y2, hl]
    exact (Date_shows ref.loc 2024 3 31 ref.Hour ref.Minute ref.Second ref.Nanosecond o2 hs
      (by decide) (by decide) (by decide) (by decide) b1 b2 b3 b4 b5 b6 n0 n1).1

/-- C3, the amended statement at Friday 2024-03-15 12:00 in New York (UTC-5 on the 1st,
UTC-4 on the 31st), with a recognizer that rejects every phrase and an option that
would panic if it were applied. -/
theorem ParseNaturalDate_shortcuts_witness :
    (ParseNaturalDate rejectAll "first day of the month" marchNoon
        [WithDirection 2]).map (fun r => (r.1, r.2.2)) =
      Except.ok (BeginningOfMonth marchNoon, none) ∧
    (ParseNaturalDate rejectAll "last day of this month" marchNoon
        [WithDirection 2]).map (fun r => (r.1, r.2.2)) =
      Except.ok (EndOfMonth marchNoon, none) ∧
    marchNoon.Date = (2024, 3, 15) ∧
    shows marchNoon.loc (wallAt marchNoon 2024 3 1) (-18000) ∧
    shows marchNoon.loc (wallAt marchNoon 2024 3 31) (-14400) ∧
    (BeginningOfMonth marchNoon).Date = (2024, 3, 1) ∧
    (EndOfMonth marchNoon).Date = (2024, 3, 31) :=
  ⟨(ParseNaturalDate_shortcuts rejectAll marchNoon [WithDirection 2] (-18000) (-14400)).1,
    (ParseNaturalDate_shortcuts rejectAll marchNoon [WithDirection 2]
      (-18000) (-14400)).2.2.2.1,
    by decide, by decide, by decide,
    (ParseNaturalDate_shortcuts rejectAll marchNoon [WithDirection 2]
      (-18000) (-14400)).2.2.2.2.1 (by decide) (by decide),
    (ParseNaturalDate_shortcuts rejectAll marchNoon [WithDirection 2]
      (-18000) (-14400)).2.2.2.2.2 (by decide) (by decide)⟩

/-- C3 as stated fails: in the Azores the clocks went from 00:00 to 01:00 on 2024-03-31,
so 00:30 does not exist on that day; for the reference 2024-03-15 00:30 there, "last
day of the month" returns 2024-03-30 23:30, which does not fall on 2024-03-31. -/
theorem ParseNaturalDate_shortcuts_counterexample :
    (Date 2024 3 15 0 30 0 0 azores).Date = (2024, 3, 15) ∧
    (Date 2024 3 15 0 30 0 0 azores).Clock = (0, 30, 0) ∧
    (ParseNaturalDate rejectAll "last day of the month" (Date 2024 3 15 0 30 0 0 azores)
        []).map (fun r => (r.1, r.2.2)) =
      Except.ok (EndOfMonth (Date 2024 3 15 0 30 0 0 azores), none) ∧
    (EndOfMonth (Date 2024 3 15 0 30 0 0 azores)).Date = (2024, 3, 30) ∧
    (EndOfMonth (Date 2024 3 15 0 30 0 0 azores)).Clock = (23, 30, 0) ∧
    (EndOfMonth (Date 2024 3 15 0 30 0 0 azores)).Date ≠ (2024, 3, 31) := by
  refine ⟨by decide, by decide, rfl, by decide, by decide, by decide⟩

/-- C4 fails on the code: for each of the four shortcut phrases `ParseNaturalDate`
returns the classification of the evaluator it has just built, which is
`ExprTypeInvalid` (no flag set), not `ExprTypeDate`; `IsDateOnly` is false on it. -/
theorem ParseNaturalDate_shortcut_exprType {σ ε : Type} (G : Recognizer σ ε) (ref : Time)
    (options : List (OptionFn σ)) :
    (ParseNaturalDate G "first day of the month" ref options).map (fun r => r.2.1) =
      Except.ok ExprTypeInvalid ∧
    (ParseNaturalDate G "first day of this month" ref options).map (fun r => r.2.1) =
      Except.ok ExprTypeInvalid ∧
    (ParseNaturalDate G "last day of the month" ref options).map (fun r => r.2.1) =
      Except.ok ExprTypeInvalid ∧
    (ParseNaturalDate G "last day of this month" ref options).map (fun r => r.2.1) =
      Except.ok ExprTypeInvalid ∧
    IsDateOnly ExprTypeInvalid = false ∧ ExprTypeInvalid ≠ ExprTypeDate :=
  ⟨rfl, rfl, rfl, rfl, by decide, by decide⟩

/-- The four phrases that `ParseNaturalDate` answers before it applies the options. -/
theorem not_shortcut_branch {σ ε : Type} (G : Recognizer σ ε) (s : String) (ref : Time)
    (options : List (OptionFn σ))
    (h1 : s ≠ "first day of the month") (h2 : s ≠ "first day of this month")
    (h3 : s ≠ "last day of the month") (h4 : s ≠ "last day of this month") :
    ParseNaturalDate G s ref options =
      (match applyOptions options (newParser G s ref) with
       | Except.error msg => Except.error msg
       | Except.ok p =>
         match G.Parse (G.Init p) with
         | (_, some err) => Except.ok (zeroTime, ExprTypeInvalid, some err)
         | (p, none) => Except.ok ((G.Execute p).t, (G.Execute p).exprType, none)) := by
  unfold ParseNaturalDate
  simp only [h1, h2, h3, h4, or_self, if_false]

/-- C9 (amended): for every direction value other than `Past` and `Future`, every
reference instant and every phrase other than the four shortcut phrases,
`ParseNaturalDate` with the option `WithDirection d` panics with "unhandled direction",
whatever the recognizer, and so before any parsing and without a timestamp. -/
theorem ParseNaturalDate_unhandled_direction {σ ε : Type} (G : Recognizer σ ε) (s : String)
    (ref : Time) (d : Int) (hp : d ≠ Past) (hu : d ≠ Future)
    (h1 : s ≠ "first day of the month") (h2 : s ≠ "first day of this month")
    (h3 : s ≠ "last day of the month") (h4 : s ≠ "last day of this month") :
    ParseNaturalDate G s ref [WithDirection d] = Except.error "unhandled direction" := by
  rw [not_shortcut_branch G s ref _ h1 h2 h3 h4]
  simp only [applyOptions, WithDirection, hp, hu, if_false]

/-- C9, the amended statement at the phrase "sunday" and the direction value 2. -/
theorem ParseNaturalDate_unhandled_direction_witness :
    (2 : Int) ≠ Past ∧ (2 : Int) ≠ Future ∧
    ParseNaturalDate rejectAll "sunday" sampleFriday [WithDirection 2] =
      Except.error "unhandled direction" :=
  ⟨by decide, by decide,
    ParseNaturalDate_unhandled_direction rejectAll "sunday" sampleFriday 2 (by decide)
      (by decide) (by decide) (by decide) (by decide) (by decide)⟩

/-- C9 as stated fails: with the direction value 2 and the phrase "first day of the
month" there is no panic; the call returns the beginning of the month and no error. -/
theorem ParseNaturalDate_unhandled_direction_counterexample :
    (2 : Int) ≠ Past ∧ (2 : Int) ≠ Future ∧
    ParseNaturalDate rejectAll "first day of the month" sampleFriday [WithDirection 2] =
      Except.ok (BeginningOfMonth sampleFriday, ExprTypeInvalid, none) ∧
    ParseNaturalDate rejectAll "first day of the month" sampleFriday [WithDirection 2] ≠
      Except.error "unhandled direction" :=
  ⟨by decide, by decide, rfl, fun h => Except.noConfusion h⟩

/-- C10: the evaluator that `ParseNaturalDate` builds has direction multiplier -1 and
keeps it when there are no options; `WithDirection Past` sets the multiplier to -1 and
`WithDirection Future` to +1 and change no other field; and for every 64-bit duration
`d`, `withDirection d` is `d` times the multiplier in 64-bit arithmetic: `-d` under
`Past` (Go's `-d`, which is `d` itself for the least 64-bit value) and `d` under
`Future`. -/
theorem withDirection_spec {σ ε : Type} (G : Recognizer σ ε) (s : String) (ref : Time)
    (p : gparser σ) (d : Int) (h0 : -9223372036854775808 ≤ d)
    (h1 : d ≤ 9223372036854775807) :
    (newParser G s ref).direction = -1 ∧
    applyOptions [] (newParser G s ref) = Except.ok (newParser G s ref) ∧
    WithDirection Past p = Except.ok { p with direction := -1 } ∧
    WithDirection Future p = Except.ok { p with direction := 1 } ∧
    withDirection p d = wrapInt64 (d * p.direction) ∧
    withDirection { p with direction := 1 } d = d ∧
    withDirection { p with direction := -1 } d = wrapInt64 (-d) ∧
    (d ≠ -9223372036854775808 → withDirection { p with direction := -1 } d = -d) ∧
    withDirection (newParser G s ref) d = wrapInt64 (-d) := by
  refine ⟨rfl, rfl, rfl, rfl, rfl, ?_, ?_, ?_, ?_⟩
  · simp only [withDirection, mul_one]
    exact wrapInt64_id d h0 h1
  · simp only [withDirection, mul_neg, mul_one]
  · intro hne
    simp only [withDirection, mul_neg, mul_one]
    exact wrapInt64_id (-d) (by omega) (by omega)
  · simp only [withDirection, newParser, mul_neg, mul_one]

/-- C10 at a duration of 90 minutes. -/
theorem withDirection_spec_witness :
    (-9223372036854775808 : Int) ≤ 5400000000000 ∧
    (5400000000000 : Int) ≤ 9223372036854775807 ∧
    (newParser rejectAll "sunday" sampleFriday).direction = -1 ∧
    applyOptions [] (newParser rejectAll "sunday" sampleFriday) =
      Except.ok (newParser rejectAll "sunday" sampleFriday) ∧
    WithDirection Past (newParser rejectAll "sunday" sampleFriday) =
      Except.ok { newParser rejectAll "sunday" sampleFriday with direction := -1 } ∧
    WithDirection Future (newParser rejectAll "sunday" sampleFriday) =
      Except.ok { newParser rejectAll "sunday" sampleFriday with direction := 1 } ∧
    withDirection (newParser rejectAll "sunday" sampleFriday) 5400000000000 =
      wrapInt64 (5400000000000 * (newParser rejectAll "sunday" sampleFriday).direction) ∧
    withDirection { newParser rejectAll "sunday" sampleFriday with direction := 1 }
      5400000000000 = 5400000000000 ∧
    withDirection { newParser rejectAll "sunday" sampleFriday with direction := -1 }
      5400000000000 = wrapInt64 (-5400000000000) ∧
    ((5400000000000 : Int) ≠ -9223372036854775808 →
      withDirection { newParser rejectAll "sunday" sampleFriday with direction := -1 }
        5400000000000 = -5400000000000) ∧
    withDirection (newParser rejectAll "sunday" sampleFriday) 5400000000000 =
      wrapInt64 (-5400000000000) :=
  ⟨by decide, by decide,
    withDirection_spec rejectAll "sunday" sampleFriday
      (newParser rejectAll "sunday" sampleFriday) 5400000000000 (by decide) (by decide)⟩

/-! ## The entry point on a recognition failure, and the two setters -/

/-- C11: for every phrase other than the four shortcut phrases and every reference
instant, once the options have been applied to the fresh evaluator (whose text is the
lower-cased phrase): if the recognizer fails, `ParseNaturalDate` returns that error
with the zero timestamp and the `Invalid` classification, whatever the reference
instant and whatever the recognizer did to the working timestamp; and the error it
returns is always the recognizer's, so that no error means that recognition
succeeded. -/
theorem ParseNaturalDate_syntax_error {σ ε : Type} (G : Recognizer σ ε) (s : String)
    (ref : Time) (options : List (OptionFn σ)) (p : gparser σ)
    (h1 : s ≠ "first day of the month") (h2 : s ≠ "first day of this month")
    (h3 : s ≠ "last day of the month") (h4 : s ≠ "last day of this month")
    (hopt : applyOptions options (newParser G s ref) = Except.ok p) :
    (newParser G s ref).Buffer = G.ToLower s ∧ (newParser G s ref).t = ref ∧
    applyOptions [] (newParser G s ref) = Except.ok (newParser G s ref) ∧
    (∀ err, (G.Parse (G.Init p)).2 = some err →
      ParseNaturalDate G s ref options = Except.ok (zeroTime, ExprTypeInvalid, some err)) ∧
    (∀ err, (G.Parse (G.Init p)).2 = some err → ref ≠ zeroTime →
      (ParseNaturalDate G s ref options).map (fun r => r.1) ≠ Except.ok ref) ∧
    (ParseNaturalDate G s ref options).map (fun r => r.2.2) =
      Except.ok (G.Parse (G.Init p)).2 ∧
    ((ParseNaturalDate G s ref options).map (fun r => r.2.2) = Except.ok none →
      (G.Parse (G.Init p)).2 = none) := by
  have hbr := not_shortcut_branch G s ref options h1 h2 h3 h4
  rw [hopt] at hbr
  simp only [] at hbr
  have hfail : ∀ err, (G.Parse (G.Init p)).2 = some err →
      ParseNaturalDate G s ref options = Except.ok (zeroTime, ExprTypeInvalid, some err) := by
    intro err he
    rw [hbr]
    generalize G.Parse (G.Init p) = r at he
    obtain ⟨q, e⟩ := r
    simp only [] at he
    subst he
    rfl
  have hret : (ParseNaturalDate G s ref options).map (fun r => r.2.2) =
      Except.ok (G.Parse (G.Init p)).2 := by
    rw [hbr]
    generalize G.Parse (G.Init p) = r
    obtain ⟨q, e⟩ := r
    cases e <;> rfl
  refine ⟨rfl, rfl, rfl, hfail, ?_, hret, ?_⟩
  · intro err he hne h
    rw [hfail err he] at h
    exact hne (Except.ok.inj h).symm
  · intro h
    rw [hret] at h
    exact Except.ok.inj h

/-- C11 at the phrase "blorp", with a recognizer that rejects every phrase. -/
theorem ParseNaturalDate_syntax_error_witness :
    "blorp" ≠ "first day of the month" ∧ "blorp" ≠ "first day of this month" ∧
    "blorp" ≠ "last day of the month" ∧ "blorp" ≠ "last day of this month" ∧
    applyOptions [] (newParser rejectAll "blorp" sampleFriday) =
      Except.ok (newParser rejectAll "blorp" sampleFriday) ∧
    (newParser rejectAll "blorp" sampleFriday).Buffer = rejectAll.ToLower "blorp" ∧
    (newParser rejectAll "blorp" sampleFriday).t = sampleFriday ∧
    applyOptions [] (newParser rejectAll "blorp" sampleFriday) =
      Except.ok (newParser rejectAll "blorp" sampleFriday) ∧
    (∀ err, (rejectAll.Parse (rejectAll.Init (newParser rejectAll "blorp" sampleFriday))).2 =
        some err →
      ParseNaturalDate rejectAll "blorp" sampleFriday [] =
        Except.ok (zeroTime, ExprTypeInvalid, some err)) ∧
    (∀ err, (rejectAll.Parse (rejectAll.Init (newParser rejectAll "blorp" sampleFriday))).2 =
        some err → sampleFriday ≠ zeroTime →
      (ParseNaturalDate rejectAll "blorp" sampleFriday []).map (fun r => r.1) ≠
        Except.ok sampleFriday) ∧
    (ParseNaturalDate rejectAll "blorp" sampleFriday []).map (fun r => r.2.2) =
      Except.ok (rejectAll.Parse (rejectAll.Init (newParser rejectAll "blorp" sampleFriday))).2 ∧
    ((ParseNaturalDate rejectAll "blorp" sampleFriday []).map (fun r => r.2.2) =
        Except.ok none →
      (rejectAll.Parse (rejectAll.Init (newParser rejectAll "blorp" sampleFriday))).2 = none) :=
  ⟨by decide, by decide, by decide, by decide, rfl,
    ParseNaturalDate_syntax_error rejectAll "blorp" sampleFriday []
      (newParser rejectAll "blorp" sampleFriday) (by decide) (by decide) (by decide)
      (by decide) rfl⟩

/-- Two integers with the same bits are equal. -/
theorem Int_eq_of_testBit_eq (a b : Int) (h : ∀ k, a.testBit k = b.testBit k) : a = b := by
  have hfalse : ∀ m n : Nat, (∀ k, Nat.testBit m k = !(Nat.testBit n k)) → False := by
    intro m n hk
    have h1 : Nat.testBit m (m + n) = false :=
      Nat.testBit_lt_two_pow (lt_of_le_of_lt (Nat.le_add_right m n) (Nat.lt_two_pow (m + n)))
    have h2 : Nat.testBit n (m + n) = false :=
      Nat.testBit_lt_two_pow (lt_of_le_of_lt (Nat.le_add_left n m) (Nat.lt_two_pow (m + n)))
    have := hk (m + n)
    rw [h1, h2] at this
    exact Bool.noConfusion this
  cases a with
  | ofNat m =>
    cases b with
    | ofNat n =>
      have : m = n := Nat.eq_of_testBit_eq (fun k => h k)
      rw [this]
    | negSucc n => exact (hfalse m n (fun k => h k)).elim
  | negSucc m =>
    cases b with
    | ofNat n => exact (hfalse n m (fun k => (h k).symm)).elim
    | negSucc n =>
      have : m = n := Nat.eq_of_testBit_eq (fun k => by
        have := h k
        simp only [Int.testBit] at this
        exact Bool.not_inj this)
      rw [this]

/-- Raising a flag sets it. -/
theorem land_lor_self (x f : Int) : Int.land (Int.lor x f) f = f := by
  apply Int_eq_of_testBit_eq
  intro k
  rw [Int.testBit_land, Int.testBit_lor]
  cases x.testBit k <;> cases f.testBit k <;> rfl

/-- Raising a flag clears no other flag. -/
theorem land_lor_of_land (x f g : Int) (h : Int.land x g = g) :
    Int.land (Int.lor x f) g = g := by
  apply Int_eq_of_testBit_eq
  intro k
  have hk := congrArg (fun y => Int.testBit y k) h
  simp only [Int.testBit_land] at hk
  rw [Int.testBit_land, Int.testBit_lor]
  revert hk
  cases x.testBit k <;> cases f.testBit k <;> cases g.testBit k <;> simp

/-- C12: for every evaluator state `p` and timestamp `t`, `dateExprSet p t` has the Date
flag and `timeExprSet p t` the Time flag in the classification, together with every
flag and every bit that was set in `p` (none is cleared); the working timestamp is
`t`; the direction multiplier, the input text and the recognizer's own state are
those of `p`. -/
theorem dateExprSet_timeExprSet_spec {σ : Type} (p : gparser σ) (t : Time) :
    (Int.land (dateExprSet p t).exprType ExprTypeDate = ExprTypeDate ∧
      (∀ f, Int.land p.exprType f = f → Int.land (dateExprSet p t).exprType f = f) ∧
      (∀ k, p.exprType.testBit k = true → (dateExprSet p t).exprType.testBit k = true) ∧
      (dateExprSet p t).t = t ∧ (dateExprSet p t).direction = p.direction ∧
      (dateExprSet p t).Buffer = p.Buffer ∧ (dateExprSet p t).peg = p.peg) ∧
    (Int.land (timeExprSet p t).exprType ExprTypeTime = ExprTypeTime ∧
      (∀ f, Int.land p.exprType f = f → Int.land (timeExprSet p t).exprType f = f) ∧
      (∀ k, p.exprType.testBit k = true → (timeExprSet p t).exprType.testBit k = true) ∧
      (timeExprSet p t).t = t ∧ (timeExprSet p t).direction = p.direction ∧
      (timeExprSet p t).Buffer = p.Buffer ∧ (timeExprSet p t).peg = p.peg) := by
  refine ⟨⟨land_lor_self _ _, fun f h => land_lor_of_land _ _ f h, ?_, rfl, rfl, rfl, rfl⟩,
    ⟨land_lor_self _ _, fun f h => land_lor_of_land _ _ f h, ?_, rfl, rfl, rfl, rfl⟩⟩
  · intro k hk
    show (Int.lor p.exprType ExprTypeDate).testBit k = true
    rw [Int.testBit_lor, hk]; rfl
  · intro k hk
    show (Int.lor p.exprType ExprTypeTime).testBit k = true
    rw [Int.testBit_lor, hk]; rfl

/-- C13 (amended): for every evaluator state `p` and all timestamps `d` and `t`,
`dateExprSet d` followed by `timeExprSet t` leaves a classification with both Date and
Time set and the working timestamp `t` itself: its time of day is that of `t`, and its
calendar date is that of `t` as well, so that the date of `d` persists exactly when
`t` carries that date. Direction and text are those of `p`. -/
theorem dateExprSet_then_timeExprSet {σ : Type} (p : gparser σ) (d t : Time) :
    Int.land (timeExprSet (dateExprSet p d) t).exprType ExprTypeDate = ExprTypeDate ∧
    Int.land (timeExprSet (dateExprSet p d) t).exprType ExprTypeTime = ExprTypeTime ∧
    (timeExprSet (dateExprSet p d) t).t = t ∧
    (timeExprSet (dateExprSet p d) t).t.Clock = t.Clock ∧
    (timeExprSet (dateExprSet p d) t).t.Date = t.Date ∧
    ((timeExprSet (dateExprSet p d) t).t.Date = d.Date ↔ t.Date = d.Date) ∧
    (timeExprSet (dateExprSet p d) t).direction = p.direction ∧
    (timeExprSet (dateExprSet p d) t).Buffer = p.Buffer := by
  refine ⟨?_, land_lor_self _ _, rfl, rfl, rfl, Iff.rfl, rfl, rfl⟩
  exact land_lor_of_land _ _ _ (land_lor_self _ _)

/-- C13 as stated fails: after the date action with 2024-03-15 and the time action with
2020-01-01 10:30, the working timestamp is 2020-01-01 10:30; the date 2024-03-15 set
by the earlier action does not persist. -/
theorem dateExprSet_then_timeExprSet_counterexample :
    (Date 2024 3 15 0 0 0 0 UTC).Date = (2024, 3, 15) ∧
    (timeExprSet (dateExprSet (newParser rejectAll "" sampleFriday)
      (Date 2024 3 15 0 0 0 0 UTC)) (Date 2020 1 1 10 30 0 0 UTC)).t.Date = (2020, 1, 1) ∧
    (timeExprSet (dateExprSet (newParser rejectAll "" sampleFriday)
      (Date 2024 3 15 0 0 0 0 UTC)) (Date 2020 1 1 10 30 0 0 UTC)).t.Date ≠
      (Date 2024 3 15 0 0 0 0 UTC).Date := by
  decide

/-! ## Month navigation -/

/-- The table `daysBefore` stays close to 30.5 days a month. -/
theorem daysBefore_lin (k : Int) (h0 : 0 ≤ k) (h1 : k ≤ 11) :
    0 ≤ daysBefore k ∧ daysBefore k ≤ 334 ∧
    61 * k - 4 ≤ 2 * daysBefore k ∧ 2 * daysBefore k ≤ 61 * k + 1 := by
  obtain ⟨d0, d1, d2, d3, d4, d5, d6, d7, d8, d9, d10, d11, d12⟩ := daysBefore_vals
  interval_cases k <;> simp only [d0, d1, d2, d3, d4, d5, d6, d7, d8, d9, d10, d11] <;> omega

/-- Between two different months the table `daysBefore` moves by 28 to 334 days. -/
theorem daysBefore_gap (k1 k2 : Int) (h0 : 0 ≤ k1) (h1 : k1 < k2) (h2 : k2 ≤ 11) :
    28 ≤ daysBefore k2 - daysBefore k1 ∧ daysBefore k2 - daysBefore k1 ≤ 334 := by
  obtain ⟨p1, p2, p3, p4⟩ := daysBefore_lin k1 h0 (by omega)
  obtain ⟨q1, q2, q3, q4⟩ := daysBefore_lin k2 (by omega) h2
  have g : 56 ≤ 2 * (daysBefore k2 - daysBefore k1) := by linarith
  clear p3 p4 q3 q4
  omega

/-- From a day of a month to the same day of another month, the next time that month
comes: 28 to 366 days. -/
theorem civilDays_gap (y m1 m2 d : Int) (a1 : 1 ≤ m1) (a2 : m1 ≤ 12) (b1 : 1 ≤ m2)
    (b2 : m2 ≤ 12) :
    (m2 ≤ m1 → 28 ≤ civilDays (y + 1) m2 d - civilDays y m1 d ∧
      civilDays (y + 1) m2 d - civilDays y m1 d ≤ 366) ∧
    (m1 < m2 → 28 ≤ civilDays y m2 d - civilDays y m1 d ∧
      civilDays y m2 d - civilDays y m1 d ≤ 366) := by
  have hs := yearDays_succ y
  have hcons : ¬ (isLeap y = true ∧ isLeap (y + 1) = true) := by
    rw [isLeap_iff, isLeap_iff]; omega
  unfold civilDays
  constructor
  · intro hle
    rw [hs]
    rcases eq_or_lt_of_le hle with heq | hlt
    · subst heq
      by_cases l1 : isLeap y = true <;> by_cases l2 : isLeap (y + 1) = true <;>
        simp only [l1, l2, Bool.false_eq_true, true_and, false_and, if_true, if_false] <;>
        first
          | exact (hcons ⟨l1, l2⟩).elim
          | (constructor <;> (try split) <;> omega)
    · obtain ⟨g1, g2⟩ := daysBefore_gap (m2 - 1) (m1 - 1) (by omega) (by omega) (by omega)
      by_cases l1 : isLeap y = true <;> by_cases l2 : isLeap (y + 1) = true <;>
        simp only [l1, l2, Bool.false_eq_true, true_and, false_and, if_true, if_false] <;>
        first
          | exact (hcons ⟨l1, l2⟩).elim
          | (constructor <;> omega)
  · intro hlt
    obtain ⟨g1, g2⟩ := daysBefore_gap (m1 - 1) (m2 - 1) (by omega) (by omega) (by omega)
    by_cases l1 : isLeap y = true <;>
      simp only [l1, Bool.false_eq_true, true_and, false_and, if_true, if_false] <;>
      constructor <;> omega

/-- A day past the end of a month is a day of the next month. -/
theorem civilDays_overflow (y m d : Int) (hm1 : 1 ≤ m) (hm2 : m ≤ 11) :
    civilDays y m d = civilDays y (m + 1) (d - daysIn m y) := by
  obtain ⟨d0, d1, d2, d3, d4, d5, d6, d7, d8, d9, d10, d11, d12⟩ := daysBefore_vals
  unfold civilDays daysIn
  interval_cases m <;>
    simp [d0, d1, d2, d3, d4, d5, d6, d7, d8, d9, d10, d11, d12] <;> (try split) <;> omega

theorem nextMonth_eq_Date (t : Time) (m : Int) :
    nextMonth t m =
      Date (nextMonthYear t m) m t.Day t.Hour t.Minute t.Second 0 t.loc := by
  unfold nextMonth nextMonthYear
  by_cases h : m ≤ t.Month
  · rw [if_pos h]
    have : m - t.Month ≤ 0 := by omega
    simp only [this, if_true]
    rfl
  · rw [if_neg h]
    have : ¬ (m - t.Month ≤ 0) := by omega
    simp only [this, if_false]
    rfl

theorem prevMonth_eq_Date (t : Time) (m : Int) :
    prevMonth t m =
      Date (prevMonthYear t m) m t.Day t.Hour t.Minute t.Second 0 t.loc := by
  unfold prevMonth prevMonthYear
  by_cases h : t.Month ≤ m
  · rw [if_pos h]
    have : t.Month - m ≤ 0 := by omega
    simp only [this, if_true]
    rfl
  · rw [if_neg h]
    have : ¬ (t.Month - m ≤ 0) := by omega
    simp only [this, if_false]
    rfl

/-- The instant that `time.Date` builds for the clock reading of `t` on the day of the
month of `t` in month `m` of year `y`, where that day and that reading exist. -/
theorem Date_of_month (t : Time) (y m o : Int) (hm1 : 1 ≤ m) (hm2 : m ≤ 12)
    (hday : t.Day ≤ daysIn m y) (hshow : shows t.loc (wallAt t y m t.Day) o) :
    (Date y m t.Day t.Hour t.Minute t.Second 0 t.loc).Year = y ∧
    (Date y m t.Day t.Hour t.Minute t.Second 0 t.loc).Month = m ∧
    (Date y m t.Day t.Hour t.Minute t.Second 0 t.loc).Day = t.Day ∧
    (Date y m t.Day t.Hour t.Minute t.Second 0 t.loc).Hour = t.Hour ∧
    (Date y m t.Day t.Hour t.Minute t.Second 0 t.loc).Minute = t.Minute ∧
    (Date y m t.Day t.Hour t.Minute t.Second 0 t.loc).Second = t.Second ∧
    (Date y m t.Day t.Hour t.Minute t.Second 0 t.loc).Nanosecond = 0 ∧
    (Date y m t.Day t.Hour t.Minute t.Second 0 t.loc).offset = o ∧
    (Date y m t.Day t.Hour t.Minute t.Second 0 t.loc).abs - t.abs =
      (civilDays y m t.Day - civilDays t.Year t.Month t.Day) * 86400 ∧
    (timeInRange t →
      (Date y m t.Day t.Hour t.Minute t.Second 0 t.loc).sec - t.sec =
        ((Date y m t.Day t.Hour t.Minute t.Second 0 t.loc).abs - t.abs) - (o - t.offset)) := by
  obtain ⟨a1, a2, a3, a4, b1, b2, b3, b4, b5, b6⟩ := Time_fields_valid t
  obtain ⟨f1, f2, f3, f4, f5, f6, f7, _⟩ := Date_shows t.loc y m t.Day t.Hour t.Minute
    t.Second 0 o hshow hm1 hm2 a3 hday b1 b2 b3 b4 b5 b6 (le_refl 0) (by decide)
  rw [Date_parts] at f1
  rw [Clock_parts] at f2
  obtain ⟨g1, g2, g3⟩ := triple_inj f1
  obtain ⟨g4, g5, g6⟩ := triple_inj f2
  have e3 := Time_abs_fields t
  have hw : wallClock y m t.Day t.Hour t.Minute t.Second =
      civilDays y m t.Day * 86400 + (t.Hour * 3600 + t.Minute * 60 + t.Second) := rfl
  refine ⟨g1, g2, g3, g4, g5, g6, f3, f6, ?_, ?_⟩
  · rw [f7, hw]; omega
  · intro ht
    rw [f7, f5, (abs_of_inRange t ht).2]; omega

/-- C14 (amended): for a month `m` (January = 1 to December = 12) such that the day of the
month of `t` exists in month `m` of the year `nextMonth` picks, and such that the clock
reading of `t` on that day exists in the location of `t` with an offset `o`, within the
range of Go's counts (`shows`), `nextMonth t m` has month `m`, the day of the month,
hour, minute, second and location of `t`, no sub-second part, and the year of `t` plus
1 when `m` is not later than the month of `t` and the year of `t` otherwise. By the
calendar its reading is 28 to 366 days after that of `t`. When `t` itself lies within
the range of Go's counts, it is strictly after `t` as an instant exactly when `o`
exceeds the offset at `t` by less than the time between the two readings, so whenever
it exceeds it by less than 28 days; and it is at most 366 days after `t` when the two
offsets are equal. -/
theorem nextMonth_spec (t : Time) (m o : Int) (hm1 : 1 ≤ m) (hm2 : m ≤ 12)
    (hday : t.Day ≤ daysIn m (nextMonthYear t m))
    (hshow : shows t.loc (wallAt t (nextMonthYear t m) m t.Day) o) :
    (nextMonth t m).Month = m ∧ (nextMonth t m).Day = t.Day ∧
    (nextMonth t m).Hour = t.Hour ∧ (nextMonth t m).Minute = t.Minute ∧
    (nextMonth t m).Second = t.Second ∧ (nextMonth t m).Location = t.Location ∧
    (nextMonth t m).Nanosecond = 0 ∧
    (nextMonth t m).Year = (if m ≤ t.Month then t.Year + 1 else t.Year) ∧
    (nextMonth t m).offset = o ∧
    t.abs + 28 * 86400 ≤ (nextMonth t m).abs ∧ (nextMonth t m).abs ≤ t.abs + 366 * 86400 ∧
    (timeInRange t →
      (t.Before (nextMonth t m) ↔ o - t.offset < (nextMonth t m).abs - t.abs) ∧
      (o - t.offset < 28 * 86400 → t.Before (nextMonth t m)) ∧
      (o = t.offset →
        t.Before (nextMonth t m) ∧ (nextMonth t m).sec ≤ t.sec + 366 * 86400)) := by
  obtain ⟨a1, a2, _⟩ := Time_fields_valid t
  obtain ⟨g1, g2, g3, g4, g5, g6, g7, g8, g9, g10⟩ :=
    Date_of_month t (nextMonthYear t m) m o hm1 hm2 hday hshow
  rw [← nextMonth_eq_Date] at g1 g2 g3 g4 g5 g6 g7 g8 g9 g10
  obtain ⟨c1, c2⟩ := civilDays_gap t.Year t.Month m t.Day a1 a2 hm1 hm2
  have gap : 28 ≤ civilDays (nextMonthYear t m) m t.Day - civilDays t.Year t.Month t.Day ∧
      civilDays (nextMonthYear t m) m t.Day - civilDays t.Year t.Month t.Day ≤ 366 := by
    unfold nextMonthYear
    by_cases h : m ≤ t.Month
    · rw [if_pos h]; exact c1 h
    · rw [if_neg h]; exact c2 (by omega)
  obtain ⟨gap1, gap2⟩ := gap
  have hloc : (nextMonth t m).Location = t.Location := by
    rw [nextMonth_eq_Date]; rfl
  have hz : (nextMonth t m).nsec.val = 0 := by
    unfold Time.Nanosecond at g7; omega
  refine ⟨g2, g3, g4, g5, g6, hloc, g7, g1, g8, by omega, by omega, ?_⟩
  intro ht
  have gs := g10 ht
  have hB : t.Before (nextMonth t m) ↔ o - t.offset < (nextMonth t m).abs - t.abs := by
    unfold Time.Before
    rw [hz]
    omega
  refine ⟨hB, ?_, ?_⟩
  · intro h; rw [hB]; omega
  · intro h
    refine ⟨by rw [hB]; omega, by omega⟩

/-- C14, the amended statement at Monday 2024-07-15 12:00 in New York (summer time,
UTC-4) and December, where the offset is UTC-5. -/
theorem nextMonth_spec_witness :
    (1 : Int) ≤ 12 ∧ (12 : Int) ≤ 12 ∧
    summerNoon.Day ≤ daysIn 12 (nextMonthYear summerNoon 12) ∧
    shows summerNoon.loc (wallAt summerNoon (nextMonthYear summerNoon 12) 12 summerNoon.Day)
      (-18000) ∧
    timeInRange summerNoon ∧ summerNoon.offset = -14400 ∧
    (nextMonth summerNoon 12).Date = (2024, 12, 15) ∧
    (nextMonth summerNoon 12).Month = 12 ∧ (nextMonth summerNoon 12).Day = summerNoon.Day ∧
    (nextMonth summerNoon 12).Hour = summerNoon.Hour ∧
    (nextMonth summerNoon 12).Minute = summerNoon.Minute ∧
    (nextMonth summerNoon 12).Second = summerNoon.Second ∧
    (nextMonth summerNoon 12).Location = summerNoon.Location ∧
    (nextMonth summerNoon 12).Nanosecond = 0 ∧
    (nextMonth summerNoon 12).Year =
      (if 12 ≤ summerNoon.Month then summerNoon.Year + 1 else summerNoon.Year) ∧
    (nextMonth summerNoon 12).offset = -18000 ∧
    summerNoon.abs + 28 * 86400 ≤ (nextMonth summerNoon 12).abs ∧
    (nextMonth summerNoon 12).abs ≤ summerNoon.abs + 366 * 86400 ∧
    (timeInRange summerNoon →
      (summerNoon.Before (nextMonth summerNoon 12) ↔
        -18000 - summerNoon.offset < (nextMonth summerNoon 12).abs - summerNoon.abs) ∧
      (-18000 - summerNoon.offset < 28 * 86400 → summerNoon.Before (nextMonth summerNoon 12)) ∧
      (-18000 = summerNoon.offset →
        summerNoon.Before (nextMonth summerNoon 12) ∧
        (nextMonth summerNoon 12).sec ≤ summerNoon.sec + 366 * 86400)) :=
  ⟨by decide, by decide, by decide, by decide, by decide, by decide, by decide,
    nextMonth_spec summerNoon 12 (-18000) (by decide) (by decide) (by decide) (by decide)⟩

/-- C14 as stated fails. In Asuncion the clocks went from 00:00 to 01:00 on 2017-10-01,
so 00:30 does not exist on that day: from 2017-09-01 00:30, where day 1 exists in
October, `nextMonth` to October returns 2017-09-30 23:30, with another month, day and
hour. And at the end of Go's range, from 292277024627-12-01 00:00 UTC, `nextMonth` to
December names the day a year later, but its seconds wrap and it is not after `t`. -/
theorem nextMonth_counterexample :
    (1 : Int) ≤ 10 ∧ (10 : Int) ≤ 12 ∧
    (Date 2017 9 1 0 30 0 0 asuncion).Day ≤
      daysIn 10 (nextMonthYear (Date 2017 9 1 0 30 0 0 asuncion) 10) ∧
    (Date 2017 9 1 0 30 0 0 asuncion).Date = (2017, 9, 1) ∧
    (Date 2017 9 1 0 30 0 0 asuncion).Clock = (0, 30, 0) ∧
    (nextMonth (Date 2017 9 1 0 30 0 0 asuncion) 10).Date = (2017, 9, 30) ∧
    (nextMonth (Date 2017 9 1 0 30 0 0 asuncion) 10).Clock = (23, 30, 0) ∧
    ¬ ((nextMonth (Date 2017 9 1 0 30 0 0 asuncion) 10).Month = 10) ∧
    (Date 292277024627 12 1 0 0 0 0 UTC).Date = (292277024627, 12, 1) ∧
    (nextMonth (Date 292277024627 12 1 0 0 0 0 UTC) 12).Date = (292277024628, 12, 1) ∧
    ¬ (Date 292277024627 12 1 0 0 0 0 UTC).Before
      (nextMonth (Date 292277024627 12 1 0 0 0 0 UTC) 12) := by
  decide

/-- C15 (amended): for a month `m` (January = 1 to December = 12) such that the day of the
month of `t` exists in month `m` of the year `prevMonth` picks, and such that the clock
reading of `t` on that day exists in the location of `t` with an offset `o`, within the
range of Go's counts (`shows`), `prevMonth t m` has month `m`, the day of the month,
hour, minute, second and location of `t`, no sub-second part, and the year of `t` minus
1 when `m` is not earlier than the month of `t` and the year of `t` otherwise. By the
calendar its reading is 28 to 366 days before that of `t`. When `t` itself lies within
the range of Go's counts, it is strictly before `t` as an instant whenever the offset
at `t` exceeds `o` by less than the time between the two readings (and only if it does
not exceed it by more), so whenever it exceeds it by less than 28 days; and it is, in
whole seconds, at most 366 days before `t` when the two offsets are equal. -/
theorem prevMonth_spec (t : Time) (m o : Int) (hm1 : 1 ≤ m) (hm2 : m ≤ 12)
    (hday : t.Day ≤ daysIn m (prevMonthYear t m))
    (hshow : shows t.loc (wallAt t (prevMonthYear t m) m t.Day) o) :
    (prevMonth t m).Month = m ∧ (prevMonth t m).Day = t.Day ∧
    (prevMonth t m).Hour = t.Hour ∧ (prevMonth t m).Minute = t.Minute ∧
    (prevMonth t m).Second = t.Second ∧ (prevMonth t m).Location = t.Location ∧
    (prevMonth t m).Nanosecond = 0 ∧
    (prevMonth t m).Year = (if t.Month ≤ m then t.Year - 1 else t.Year) ∧
    (prevMonth t m).offset = o ∧
    t.abs - 366 * 86400 ≤ (prevMonth t m).abs ∧ (prevMonth t m).abs ≤ t.abs - 28 * 86400 ∧
    (timeInRange t →
      (t.offset - o < t.abs - (prevMonth t m).abs → (prevMonth t m).Before t) ∧
      ((prevMonth t m).Before t → t.offset - o ≤ t.abs - (prevMonth t m).abs) ∧
      (t.offset - o < 28 * 86400 → (prevMonth t m).Before t) ∧
      (o = t.offset →
        (prevMonth t m).Before t ∧ t.sec - 366 * 86400 ≤ (prevMonth t m).sec)) := by
  obtain ⟨a1, a2, _⟩ := Time_fields_valid t
  obtain ⟨g1, g2, g3, g4, g5, g6, g7, g8, g9, g10⟩ :=
    Date_of_month t (prevMonthYear t m) m o hm1 hm2 hday hshow
  rw [← prevMonth_eq_Date] at g1 g2 g3 g4 g5 g6 g7 g8 g9 g10
  have gap : 28 ≤ civilDays t.Year t.Month t.Day - civilDays (prevMonthYear t m) m t.Day ∧
      civilDays t.Year t.Month t.Day - civilDays (prevMonthYear t m) m t.Day ≤ 366 := by
    unfold prevMonthYear
    by_cases h : t.Month ≤ m
    · rw [if_pos h]
      have c := (civilDays_gap (t.Year - 1) m t.Month t.Day hm1 hm2 a1 a2).1 h
      rw [sub_add_cancel] at c
      exact c
    · rw [if_neg h]
      exact (civilDays_gap t.Year m t.Month t.Day hm1 hm2 a1 a2).2 (by omega)
  obtain ⟨gap1, gap2⟩ := gap
  have hloc : (prevMonth t m).Location = t.Location := by
    rw [prevMonth_eq_Date]; rfl
  have hz : (prevMonth t m).nsec.val = 0 := by
    unfold Time.Nanosecond at g7; omega
  refine ⟨g2, g3, g4, g5, g6, hloc, g7, g1, g8, by omega, by omega, ?_⟩
  intro ht
  have gs := g10 ht
  have hB1 : t.offset - o < t.abs - (prevMonth t m).abs → (prevMonth t m).Before t := by
    intro h; left; omega
  have hB2 : (prevMonth t m).Before t → t.offset - o ≤ t.abs - (prevMonth t m).abs := by
    unfold Time.Before
    rintro (h | ⟨h, _⟩) <;> omega
  refine ⟨hB1, hB2, ?_, ?_⟩
  · intro h; exact hB1 (by omega)
  · intro h
    refine ⟨hB1 (by omega), by omega⟩

/-- C15, the amended statement at Monday 2024-07-15 12:00 in New York (summer time,
UTC-4) and December, where the offset is UTC-5. -/
theorem prevMonth_spec_witness :
    (1 : Int) ≤ 12 ∧ (12 : Int) ≤ 12 ∧
    summerNoon.Day ≤ daysIn 12 (prevMonthYear summerNoon 12) ∧
    shows summerNoon.loc (wallAt summerNoon (prevMonthYear summerNoon 12) 12 summerNoon.Day)
      (-18000) ∧
    timeInRange summerNoon ∧ summerNoon.offset = -14400 ∧
    (prevMonth summerNoon 12).Date = (2023, 12, 15) ∧
    (prevMonth summerNoon 12).Month = 12 ∧ (prevMonth summerNoon 12).Day = summerNoon.Day ∧
    (prevMonth summerNoon 12).Hour = summerNoon.Hour ∧
    (prevMonth summerNoon 12).Minute = summerNoon.Minute ∧
    (prevMonth summerNoon 12).Second = summerNoon.Second ∧
    (prevMonth summerNoon 12).Location = summerNoon.Location ∧
    (prevMonth summerNoon 12).Nanosecond = 0 ∧
    (prevMonth summerNoon 12).Year =
      (if summerNoon.Month ≤ 12 then summerNoon.Year - 1 else summerNoon.Year) ∧
    (prevMonth summerNoon 12).offset = -18000 ∧
    summerNoon.abs - 366 * 86400 ≤ (prevMonth summerNoon 12).abs ∧
    (prevMonth summerNoon 12).abs ≤ summerNoon.abs - 28 * 86400 ∧
    (timeInRange summerNoon →
      (summerNoon.offset - -18000 < summerNoon.abs - (prevMonth summerNoon 12).abs →
        (prevMonth summerNoon 12).Before summerNoon) ∧
      ((prevMonth summerNoon 12).Before summerNoon →
        summerNoon.offset - -18000 ≤ summerNoon.abs - (prevMonth summerNoon 12).abs) ∧
      (summerNoon.offset - -18000 < 28 * 86400 →
        (prevMonth summerNoon 12).Before summerNoon) ∧
      (-18000 = summerNoon.offset → (prevMonth summerNoon 12).Before summerNoon ∧
        summerNoon.sec - 366 * 86400 ≤ (prevMonth summerNoon 12).sec)) :=
  ⟨by decide, by decide, by decide, by decide, by decide, by decide, by decide,
    prevMonth_spec summerNoon 12 (-18000) (by decide) (by decide) (by decide) (by decide)⟩

/-- C15 as stated fails: in Asuncion 00:30 does not exist on 2017-10-01. From 2017-11-01
00:30, where day 1 exists in October, `prevMonth` to October returns 2017-09-30 23:30:
another month, day and hour. -/
theorem prevMonth_counterexample :
    (1 : Int) ≤ 10 ∧ (10 : Int) ≤ 12 ∧
    (Date 2017 11 1 0 30 0 0 asuncion).Day ≤
      daysIn 10 (prevMonthYear (Date 2017 11 1 0 30 0 0 asuncion) 10) ∧
    (Date 2017 11 1 0 30 0 0 asuncion).Date = (2017, 11, 1) ∧
    (Date 2017 11 1 0 30 0 0 asuncion).Clock = (0, 30, 0) ∧
    (prevMonth (Date 2017 11 1 0 30 0 0 asuncion) 10).Date = (2017, 9, 30) ∧
    (prevMonth (Date 2017 11 1 0 30 0 0 asuncion) 10).Clock = (23, 30, 0) ∧
    ¬ ((prevMonth (Date 2017 11 1 0 30 0 0 asuncion) 10).Month = 10) := by
  decide

/-- A day of the month past the end of month `m` of year `y`: `time.Date` reads it as a
day of the month after `m`, and where the clock reading of `t` exists on that day the
result shows it. -/
theorem Date_overflow (t : Time) (y m o : Int) (hm1 : 1 ≤ m) (hm2 : m ≤ 12)
    (hlen : daysIn m y < t.Day)
    (hshow : shows t.loc (wallAt t y (m + 1) (t.Day - daysIn m y)) o) :
    m ≤ 11 ∧ 1 ≤ t.Day - daysIn m y ∧ t.Day - daysIn m y ≤ 3 ∧
    (Date y m t.Day t.Hour t.Minute t.Second 0 t.loc).Date =
      (y, m + 1, t.Day - daysIn m y) ∧
    (Date y m t.Day t.Hour t.Minute t.Second 0 t.loc).Clock = t.Clock ∧
    (Date y m t.Day t.Hour t.Minute t.Second 0 t.loc).Date ≠ (y, m, daysIn m y) := by
  obtain ⟨a1, a2, a3, a4, b1, b2, b3, b4, b5, b6⟩ := Time_fields_valid t
  obtain ⟨l1, l2⟩ := daysIn_bounds m y hm1 hm2
  obtain ⟨_, t31⟩ := daysIn_bounds t.Month t.Year a1 a2
  have hm11 : m ≤ 11 := by
    by_contra hc
    have h12 : m = 12 := by omega
    have := daysIn_eq m y hm1 hm2
    rw [h12] at this hlen
    norm_num at this
    omega
  obtain ⟨k1, _⟩ := daysIn_bounds (m + 1) y (by omega) (by omega)
  obtain ⟨r1, r2, _, _⟩ := hshow.1
  have hw : wallAt t y (m + 1) (t.Day - daysIn m y) =
      civilDays y (m + 1) (t.Day - daysIn m y) * 86400 +
        (t.Hour * 3600 + t.Minute * 60 + t.Second) := rfl
  obtain ⟨y0, y1⟩ := year_of_wall y (m + 1) (t.Day - daysIn m y)
    (t.Hour * 3600 + t.Minute * 60 + t.Second) (by omega) (by omega) (by omega) (by omega)
    (by omega) (by omega) (by rw [← hw]; exact r1) (by rw [← hw]; exact r2)
  have hcongr : Date y m t.Day t.Hour t.Minute t.Second 0 t.loc =
      Date y (m + 1) (t.Day - daysIn m y) t.Hour t.Minute t.Second 0 t.loc := by
    apply Date_congr
    have e1 : (m - 1) / 12 = 0 := by omega
    have e2 : (m - 1) % 12 + 1 = m := by omega
    have e3 : (m + 1 - 1) / 12 = 0 := by omega
    have e4 : (m + 1 - 1) % 12 + 1 = m + 1 := by omega
    rw [dateAbs_eq _ _ _ _ _ _ _ b1 b2 b3 b4 b5 b6 (le_refl 0) (by decide)
        (by rw [e1]; omega) (by rw [e1]; omega),
      dateAbs_eq _ _ _ _ _ _ _ b1 b2 b3 b4 b5 b6 (le_refl 0) (by decide)
        (by rw [e3]; omega) (by rw [e3]; omega)]
    simp only [e1, e2, e3, e4, add_zero]
    rw [civilDays_overflow y m t.Day hm1 hm11]
  obtain ⟨f1, f2, _⟩ := Date_shows t.loc y (m + 1) (t.Day - daysIn m y) t.Hour t.Minute
    t.Second 0 o hshow (by omega) (by omega) (by omega) (by omega) b1 b2 b3 b4 b5 b6
    (le_refl 0) (by decide)
  rw [hcongr]
  refine ⟨hm11, by omega, by omega, f1, f2, ?_⟩
  rw [f1]
  intro h
  obtain ⟨_, h2, _⟩ := triple_inj h
  omega

/-- C18 (amended): for a month `m` (January = 1 to December = 12) whose length `L` in the
year that `nextMonth` (or `prevMonth`) picks is less than the day of the month `D` of
`t`, and where the clock reading of `t` exists on the day the result names in the
location of `t`, within the range of Go's counts (`shows`), the result is day `D - L`
(1 to 3) of the month after `m` in that year, with the hour, minute and second of `t`;
it is not day `L` of month `m`. -/
theorem month_overflow (t : Time) (m : Int) (hm1 : 1 ≤ m) (hm2 : m ≤ 12) :
    (∀ o : Int, daysIn m (nextMonthYear t m) < t.Day →
      shows t.loc (wallAt t (nextMonthYear t m) (m + 1)
        (t.Day - daysIn m (nextMonthYear t m))) o →
      (nextMonth t m).Date =
        (nextMonthYear t m, m + 1, t.Day - daysIn m (nextMonthYear t m)) ∧
      (nextMonth t m).Clock = t.Clock ∧
      (nextMonth t m).Date ≠ (nextMonthYear t m, m, daysIn m (nextMonthYear t m)) ∧
      (nextMonth t m).Month ≠ m) ∧
    (∀ o : Int, daysIn m (prevMonthYear t m) < t.Day →
      shows t.loc (wallAt t (prevMonthYear t m) (m + 1)
        (t.Day - daysIn m (prevMonthYear t m))) o →
      (prevMonth t m).Date =
        (prevMonthYear t m, m + 1, t.Day - daysIn m (prevMonthYear t m)) ∧
      (prevMonth t m).Clock = t.Clock ∧
      (prevMonth t m).Date ≠ (prevMonthYear t m, m, daysIn m (prevMonthYear t m)) ∧
      (prevMonth t m).Month ≠ m) := by
  constructor
  · intro o hlen hshow
    obtain ⟨_, _, _, f1, f2, f3⟩ := Date_overflow t (nextMonthYear t m) m o hm1 hm2 hlen hshow
    rw [← nextMonth_eq_Date] at f1 f2 f3
    refine ⟨f1, f2, f3, ?_⟩
    rw [Date_parts] at f1
    obtain ⟨_, h2, _⟩ := triple_inj f1
    rw [h2]
    omega
  · intro o hlen hshow
    obtain ⟨_, _, _, f1, f2, f3⟩ := Date_overflow t (prevMonthYear t m) m o hm1 hm2 hlen hshow
    rw [← prevMonth_eq_Date] at f1 f2 f3
    refine ⟨f1, f2, f3, ?_⟩
    rw [Date_parts] at f1
    obtain ⟨_, h2, _⟩ := triple_inj f1
    rw [h2]
    omega

/-- C18, the amended statement at 2023-01-31 10:00 UTC and February, which has 28 days in
2023 and in 2022: `nextMonth` gives 2023-03-03 10:00 and `prevMonth` gives 2022-03-03
10:00. -/
theorem month_overflow_witness :
    (1 : Int) ≤ 2 ∧ (2 : Int) ≤ 12 ∧
    sampleJan31.Date = (2023, 1, 31) ∧
    daysIn 2 (nextMonthYear sampleJan31 2) < sampleJan31.Day ∧
    daysIn 2 (prevMonthYear sampleJan31 2) < sampleJan31.Day ∧
    shows sampleJan31.loc (wallAt sampleJan31 (nextMonthYear sampleJan31 2) (2 + 1)
      (sampleJan31.Day - daysIn 2 (nextMonthYear sampleJan31 2))) 0 ∧
    shows sampleJan31.loc (wallAt sampleJan31 (prevMonthYear sampleJan31 2) (2 + 1)
      (sampleJan31.Day - daysIn 2 (prevMonthYear sampleJan31 2))) 0 ∧
    ((nextMonth sampleJan31 2).Date = (2023, 3, 3) ∧
      (nextMonth sampleJan31 2).Clock = sampleJan31.Clock ∧
      (nextMonth sampleJan31 2).Date ≠
        (nextMonthYear sampleJan31 2, 2, daysIn 2 (nextMonthYear sampleJan31 2)) ∧
      (nextMonth sampleJan31 2).Month ≠ 2) ∧
    ((prevMonth sampleJan31 2).Date = (2022, 3, 3) ∧
      (prevMonth sampleJan31 2).Clock = sampleJan31.Clock ∧
      (prevMonth sampleJan31 2).Date ≠
        (prevMonthYear sampleJan31 2, 2, daysIn 2 (prevMonthYear sampleJan31 2)) ∧
      (prevMonth sampleJan31 2).Month ≠ 2) :=
  ⟨by decide, by decide, by decide, by decide, by decide, by decide, by decide,
    (month_overflow sampleJan31 2 (by decide) (by decide)).1 0 (by decide) (by decide),
    (month_overflow sampleJan31 2 (by decide) (by decide)).2 0 (by decide) (by decide)⟩

/-- C18 as stated fails: in Asuncion 00:30 does not exist on 2017-10-01. From 2017-08-31
00:30, `nextMonth` to September (30 days) does not return day 1 of October: it returns
2017-09-30 23:30, the last day of September, and so does `prevMonth` from 2017-10-31
00:30. -/
theorem month_overflow_counterexample :
    daysIn 9 (nextMonthYear (Date 2017 8 31 0 30 0 0 asuncion) 9) <
      (Date 2017 8 31 0 30 0 0 asuncion).Day ∧
    (Date 2017 8 31 0 30 0 0 asuncion).Clock = (0, 30, 0) ∧
    (nextMonth (Date 2017 8 31 0 30 0 0 asuncion) 9).Date = (2017, 9, 30) ∧
    (nextMonth (Date 2017 8 31 0 30 0 0 asuncion) 9).Clock = (23, 30, 0) ∧
    (nextMonth (Date 2017 8 31 0 30 0 0 asuncion) 9).Date ≠ (2017, 10, 1) ∧
    daysIn 9 (prevMonthYear (Date 2017 10 31 0 30 0 0 asuncion) 9) <
      (Date 2017 10 31 0 30 0 0 asuncion).Day ∧
    (prevMonth (Date 2017 10 31 0 30 0 0 asuncion) 9).Date = (2017, 9, 30) ∧
    (prevMonth (Date 2017 10 31 0 30 0 0 asuncion) 9).Date ≠ (2017, 10, 1) := by
  decide

/-! ## age.go: leap years -/

theorem tmod_zero_iff (y k : Int) : Int.tmod y k = 0 ↔ y % k = 0 := by
  rw [← Int.dvd_iff_tmod_eq_zero, Int.dvd_iff_emod_eq_zero]

/-- The leap-year test of `age.go` in terms of the remainder that is never negative. -/
theorem IsLeapYear_iff_emod (y : Int) :
    IsLeapYear y = true ↔ (y % 4 = 0 ∧ (y % 100 ≠ 0 ∨ y % 400 = 0)) := by
  unfold IsLeapYear
  split
  · rename_i h; rw [tmod_zero_iff] at h; simp; omega
  · rename_i h; rw [tmod_zero_iff] at h
    split
    · rename_i h2; rw [tmod_zero_iff] at h2; simp; omega
    · rename_i h2; rw [tmod_zero_iff] at h2
      split
      · rename_i h3; rw [tmod_zero_iff] at h3; simp; omega
      · rename_i h3; rw [tmod_zero_iff] at h3; simp; omega

/-- The leap-year test of package `time` and that of `age.go` agree. -/
theorem IsLeapYear_eq_isLeap (y : Int) : IsLeapYear y = isLeap y := by
  have h1 := IsLeapYear_iff_emod y
  have h2 := isLeap_iff y
  cases h : IsLeapYear y <;> cases h' : isLeap y <;> simp_all

/-- C16: `IsLeapYear y` is true exactly when `y` is divisible by 400, or divisible by 4
and not by 100, for every integer `y`, zero and the negative years included; the
remainders taken are Go's truncated ones. -/
theorem IsLeapYear_spec (y : Int) :
    (IsLeapYear y = true ↔ (400 ∣ y ∨ (4 ∣ y ∧ ¬ 100 ∣ y))) ∧
    (IsLeapYear y = true ↔
      (Int.tmod y 400 = 0 ∨ (Int.tmod y 4 = 0 ∧ Int.tmod y 100 ≠ 0))) ∧
    IsLeapYear 0 = true ∧ IsLeapYear (-4) = true ∧ IsLeapYear (-100) = false ∧
    IsLeapYear (-400) = true ∧ IsLeapYear (-1) = false ∧ IsLeapYear 1900 = false ∧
    IsLeapYear 2000 = true ∧ IsLeapYear 2024 = true := by
  have h := IsLeapYear_iff_emod y
  refine ⟨?_, ?_, by decide, by decide, by decide, by decide, by decide, by decide, by decide,
    by decide⟩
  · rw [h]; omega
  · simp only [h, tmod_zero_iff]
    constructor
    · rintro ⟨h4, h100 | h400⟩
      · exact Or.inr ⟨h4, fun e => h100 ((tmod_zero_iff y 100).mp e)⟩
      · exact Or.inl h400
    · rintro (h400 | ⟨h4, h100⟩)
      · exact ⟨by omega, Or.inr h400⟩
      · exact ⟨h4, Or.inl (fun e => h100 ((tmod_zero_iff y 100).mpr e))⟩

/-- Among any eight consecutive years there is a leap year. -/
theorem leap_within_eight (y : Int) :
    ∃ z, y < z ∧ z ≤ y + 8 ∧ IsLeapYear z = true := by
  by_cases h : IsLeapYear (y + 4 - y % 4) = true
  · exact ⟨y + 4 - y % 4, by omega, by omega, h⟩
  · refine ⟨y + 4 - y % 4 + 4, by omega, by omega, ?_⟩
    rw [IsLeapYear_iff_emod] at h ⊢
    omega

/-- What the loop of `NextLeapYear` returns when it is entered with `found` false. -/
theorem NextLeapYearLoop_spec (f : Int) (b : Bool) (hb : b = false) :
    ((NextLeapYearLoop f b).2 = true →
      f < (NextLeapYearLoop f b).1 ∧ (NextLeapYearLoop f b).1 ≤ MaxInt ∧
      IsLeapYear (NextLeapYearLoop f b).1 = true ∧
      ∀ z, f < z → z < (NextLeapYearLoop f b).1 → IsLeapYear z = false) ∧
    ((NextLeapYearLoop f b).2 = false →
      ∀ z, f < z → z ≤ MaxInt → IsLeapYear z = false) := by
  rw [NextLeapYearLoop]
  by_cases hlt : f < MaxInt
  · rw [if_pos hlt]
    simp only []
    by_cases hleap : IsLeapYear (f + 1) = true
    · rw [if_pos hleap]
      refine ⟨fun _ => ⟨by omega, by omega, hleap, fun z h1 h2 => by omega⟩, ?_⟩
      intro h
      simp only [hleap] at h
      exact Bool.noConfusion h
    · rw [if_neg hleap]
      have hf : IsLeapYear (f + 1) = false := by
        cases h : IsLeapYear (f + 1)
        · rfl
        · exact (hleap h).elim
      obtain ⟨r1, r2⟩ := NextLeapYearLoop_spec (f + 1) (IsLeapYear (f + 1)) hf
      refine ⟨fun h => ?_, fun h z h1 h2 => ?_⟩
      · obtain ⟨a1, a2, a3, a4⟩ := r1 h
        refine ⟨by omega, a2, a3, fun z h1 h2 => ?_⟩
        by_cases hz : z = f + 1
        · rw [hz]; exact hf
        · exact a4 z (by omega) h2
      · by_cases hz : z = f + 1
        · rw [hz]; exact hf
        · exact r2 h z (by omega) h2
  · rw [if_neg hlt]
    subst hb
    refine ⟨fun h => Bool.noConfusion h, fun _ z h1 h2 => by omega⟩
termination_by (MaxInt - f).toNat
decreasing_by
  simp only [MaxInt] at *
  omega

/-- Among any eight consecutive years there is a leap year, looking back as well. -/
theorem leap_within_eight_before (y : Int) :
    ∃ z, z < y ∧ y - 8 ≤ z ∧ IsLeapYear z = true := by
  by_cases h : IsLeapYear (y - 1 - (y - 1) % 4) = true
  · exact ⟨y - 1 - (y - 1) % 4, by omega, by omega, h⟩
  · refine ⟨y - 1 - (y - 1) % 4 - 4, by omega, by omega, ?_⟩
    rw [IsLeapYear_iff_emod] at h ⊢
    omega

/-- What the loop of `PrevLeapYear` returns when it is entered with `found` false. -/
theorem PrevLeapYearLoop_spec (f : Int) (b : Bool) (hb : b = false) :
    ((PrevLeapYearLoop f b).2 = true →
      (PrevLeapYearLoop f b).1 < f ∧ MinInt ≤ (PrevLeapYearLoop f b).1 ∧
      IsLeapYear (PrevLeapYearLoop f b).1 = true ∧
      ∀ z, (PrevLeapYearLoop f b).1 < z → z < f → IsLeapYear z = false) ∧
    ((PrevLeapYearLoop f b).2 = false →
      ∀ z, MinInt ≤ z → z < f → IsLeapYear z = false) := by
  rw [PrevLeapYearLoop]
  by_cases hlt : f > MinInt
  · rw [if_pos hlt]
    simp only []
    by_cases hleap : IsLeapYear (f - 1) = true
    · rw [if_pos hleap]
      refine ⟨fun _ => ⟨by omega, by omega, hleap, fun z h1 h2 => by omega⟩, ?_⟩
      intro h
      simp only [hleap] at h
      exact Bool.noConfusion h
    · rw [if_neg hleap]
      have hf : IsLeapYear (f - 1) = false := by
        cases h : IsLeapYear (f - 1)
        · rfl
        · exact (hleap h).elim
      obtain ⟨r1, r2⟩ := PrevLeapYearLoop_spec (f - 1) (IsLeapYear (f - 1)) hf
      refine ⟨fun h => ?_, fun h z h1 h2 => ?_⟩
      · obtain ⟨a1, a2, a3, a4⟩ := r1 h
        refine ⟨by omega, a2, a3, fun z h1 h2 => ?_⟩
        by_cases hz : z = f - 1
        · rw [hz]; exact hf
        · exact a4 z h1 (by omega)
      · by_cases hz : z = f - 1
        · rw [hz]; exact hf
        · exact r2 h z h1 (by omega)
  · rw [if_neg hlt]
    subst hb
    refine ⟨fun h => Bool.noConfusion h, fun _ z h1 h2 => by omega⟩
termination_by (f - MinInt).toNat
decreasing_by
  simp only [MinInt] at *
  omega

/-- C17: `NextLeapYear` and `PrevLeapYear` are total (their loops are bounded by the
distance to `math.MaxInt` and `math.MinInt`), and for every year `y`, every 64-bit value
included: `NextLeapYear y` has `found` true exactly when a leap year exists in
`(y, MaxInt]`, and then `foundYear` is the smallest leap year after `y`, with
`y < foundYear ≤ y + 8`; `PrevLeapYear y` has `found` true exactly when a leap year
exists in `[MinInt, y)`, and then `foundYear` is the largest leap year before `y`, with
`y - 8 ≤ foundYear < y`; when `found` is false there is no leap year in that direction. -/
theorem LeapYear_search_spec (y : Int) :
    ((NextLeapYear y).2 = true ↔ ∃ z, y < z ∧ z ≤ MaxInt ∧ IsLeapYear z = true) ∧
    ((NextLeapYear y).2 = true →
      IsLeapYear (NextLeapYear y).1 = true ∧ y < (NextLeapYear y).1 ∧
      (NextLeapYear y).1 ≤ y + 8 ∧ (NextLeapYear y).1 ≤ MaxInt ∧
      ∀ z, y < z → z < (NextLeapYear y).1 → IsLeapYear z = false) ∧
    ((NextLeapYear y).2 = false → ∀ z, y < z → z ≤ MaxInt → IsLeapYear z = false) ∧
    ((PrevLeapYear y).2 = true ↔ ∃ z, MinInt ≤ z ∧ z < y ∧ IsLeapYear z = true) ∧
    ((PrevLeapYear y).2 = true →
      IsLeapYear (PrevLeapYear y).1 = true ∧ (PrevLeapYear y).1 < y ∧
      y - 8 ≤ (PrevLeapYear y).1 ∧ MinInt ≤ (PrevLeapYear y).1 ∧
      ∀ z, (PrevLeapYear y).1 < z → z < y → IsLeapYear z = false) ∧
    ((PrevLeapYear y).2 = false → ∀ z, MinInt ≤ z → z < y → IsLeapYear z = false) := by
  obtain ⟨n1, n2⟩ := NextLeapYearLoop_spec y false rfl
  obtain ⟨p1, p2⟩ := PrevLeapYearLoop_spec y false rfl
  have hN : NextLeapYear y = NextLeapYearLoop y false := rfl
  have hP : PrevLeapYear y = PrevLeapYearLoop y false := rfl
  rw [← hN] at n1 n2
  rw [← hP] at p1 p2
  refine ⟨⟨fun h => ?_, fun h => ?_⟩, fun h => ?_, n2, ⟨fun h => ?_, fun h => ?_⟩,
    fun h => ?_, p2⟩
  · obtain ⟨a1, a2, a3, _⟩ := n1 h
    exact ⟨_, a1, a2, a3⟩
  · obtain ⟨z, z1, z2, z3⟩ := h
    cases hb : (NextLeapYear y).2
    · have := n2 hb z z1 z2
      rw [z3] at this
      exact Bool.noConfusion this
    · rfl
  · obtain ⟨a1, a2, a3, a4⟩ := n1 h
    refine ⟨a3, a1, ?_, a2, a4⟩
    obtain ⟨z, z1, z2, z3⟩ := leap_within_eight y
    by_contra hgt
    have := a4 z z1 (by omega)
    rw [z3] at this
    exact Bool.noConfusion this
  · obtain ⟨a1, a2, a3, _⟩ := p1 h
    exact ⟨_, a2, a1, a3⟩
  · obtain ⟨z, z1, z2, z3⟩ := h
    cases hb : (PrevLeapYear y).2
    · have := p2 hb z z1 z2
      rw [z3] at this
      exact Bool.noConfusion this
    · rfl
  · obtain ⟨a1, a2, a3, a4⟩ := p1 h
    refine ⟨a3, a1, ?_, a2, a4⟩
    obtain ⟨z, z1, z2, z3⟩ := leap_within_eight_before y
    by_contra hgt
    have := a4 z (by omega) z1
    rw [z3] at this
    exact Bool.noConfusion this

/-- The two searches on some years: an ordinary one, the eight-year gap around 1900, and
the ends of the 64-bit range. -/
theorem LeapYear_search_examples :
    NextLeapYear 2023 = (2024, true) ∧ NextLeapYear 1896 = (1904, true) ∧
    PrevLeapYear 2024 = (2020, true) ∧ PrevLeapYear 1904 = (1896, true) ∧
    NextLeapYear (MaxInt - 3) = (MaxInt, false) ∧ NextLeapYear MaxInt = (MaxInt, false) ∧
    PrevLeapYear (MinInt + 1) = (MinInt, true) ∧ PrevLeapYear MinInt = (MinInt, false) := by
  have e : ∀ f b, NextLeapYearLoop f b =
      (if f < MaxInt then
        (if IsLeapYear (f + 1) = true then (f + 1, IsLeapYear (f + 1))
         else NextLeapYearLoop (f + 1) (IsLeapYear (f + 1)))
       else (f, b)) := fun f b => by rw [NextLeapYearLoop]
  have e2 : ∀ f b, PrevLeapYearLoop f b =
      (if f > MinInt then
        (if IsLeapYear (f - 1) = true then (f - 1, IsLeapYear (f - 1))
         else PrevLeapYearLoop (f - 1) (IsLeapYear (f - 1)))
       else (f, b)) := fun f b => by rw [PrevLeapYearLoop]
  refine ⟨?_, ?_, ?_, ?_, ?_, ?_, ?_, ?_⟩
  · unfold NextLeapYear
    rw [e, if_pos (by decide), if_pos (by decide)]
    decide
  · unfold NextLeapYear
    iterate 7 rw [e, if_pos (by decide), if_neg (by decide)]
    rw [e, if_pos (by decide), if_pos (by decide)]
    decide
  · unfold PrevLeapYear
    iterate 3 rw [e2, if_pos (by decide), if_neg (by decide)]
    rw [e2, if_pos (by decide), if_pos (by decide)]
    decide
  · unfold PrevLeapYear
    iterate 7 rw [e2, if_pos (by decide), if_neg (by decide)]
    rw [e2, if_pos (by decide), if_pos (by decide)]
    decide
  · unfold NextLeapYear
    iterate 3 rw [e, if_pos (by decide), if_neg (by decide)]
    rw [e, if_neg (by decide)]
    decide
  · unfold NextLeapYear
    rw [e, if_neg (by decide)]
  · unfold PrevLeapYear
    rw [e2, if_pos (by decide), if_pos (by decide)]
    decide
  · unfold PrevLeapYear
    rw [e2, if_neg (by decide)]

/-! ## The classification flags -/

theorem foldl_lor_testBit (S : List Int) (a : Int) (k : Nat) :
    (S.foldl Int.lor a).testBit k = (a.testBit k || S.any (fun f => f.testBit k)) := by
  induction S generalizing a with
  | nil => simp
  | cons f S ih =>
    simp only [List.foldl_cons, List.any_cons]
    rw [ih, Int.testBit_lor, Bool.or_assoc]

theorem testBit_two_pow_cast (n k : Nat) :
    Int.testBit ((2 ^ n : Nat) : Int) k = decide (n = k) := by
  show Nat.testBit (2 ^ n) k = decide (n = k)
  exact Nat.testBit_two_pow

/-- Each flag is one bit, `1 << n` for a bit number `n` from 1 to 12. -/
theorem flag_bit (f : Int) (hf : f ∈ allFlags) :
    ∃ n : Nat, 1 ≤ n ∧ n ≤ 12 ∧ f = ((2 ^ n : Nat) : Int) := by
  simp only [allFlags, List.mem_cons, List.mem_singleton, List.not_mem_nil, or_false] at hf
  rcases hf with h | h | h | h | h | h | h | h | h | h | h | h
  · exact ⟨1, by decide, by decide, h⟩
  · exact ⟨2, by decide, by decide, h⟩
  · exact ⟨3, by decide, by decide, h⟩
  · exact ⟨4, by decide, by decide, h⟩
  · exact ⟨5, by decide, by decide, h⟩
  · exact ⟨6, by decide, by decide, h⟩
  · exact ⟨7, by decide, by decide, h⟩
  · exact ⟨8, by decide, by decide, h⟩
  · exact ⟨9, by decide, by decide, h⟩
  · exact ⟨10, by decide, by decide, h⟩
  · exact ⟨11, by decide, by decide, h⟩
  · exact ⟨12, by decide, by decide, h⟩

/-- The bits of a classification raised from a list of flags: bit `n` is set exactly
when the flag `1 << n` is in the list. -/
theorem raiseAll_testBit (S : List Int) (hS : ∀ f ∈ S, f ∈ allFlags) (n : Nat) :
    (raiseAll S).testBit n = true ↔ ((2 ^ n : Nat) : Int) ∈ S := by
  unfold raiseAll
  rw [foldl_lor_testBit]
  have h0 : Int.testBit ExprTypeInvalid n = false := by
    show Nat.testBit 0 n = false
    exact Nat.zero_testBit n
  rw [h0, Bool.false_or, List.any_eq_true]
  constructor
  · rintro ⟨g, hg, hb⟩
    obtain ⟨m, _, _, hm⟩ := flag_bit g (hS g hg)
    rw [hm, testBit_two_pow_cast] at hb
    have : m = n := of_decide_eq_true hb
    rw [← this, ← hm]
    exact hg
  · intro h
    exact ⟨_, h, by rw [testBit_two_pow_cast]; exact decide_eq_true rfl⟩

/-- A flag tested against a classification raised from a list of flags comes back whole
when it is in the list, and as nothing when it is not. -/
theorem raiseAll_land (S : List Int) (hS : ∀ f ∈ S, f ∈ allFlags) (f : Int)
    (hf : f ∈ allFlags) : Int.land (raiseAll S) f = (if f ∈ S then f else 0) := by
  obtain ⟨n, _, _, hn⟩ := flag_bit f hf
  have hbit := raiseAll_testBit S hS n
  rw [← hn] at hbit
  apply Int_eq_of_testBit_eq
  intro k
  rw [Int.testBit_land]
  by_cases hk : n = k
  · subst hk
    have hfk : f.testBit n = true := by
      rw [hn, testBit_two_pow_cast]; exact decide_eq_true rfl
    by_cases hmem : f ∈ S
    · rw [if_pos hmem, hbit.mpr hmem, hfk]; rfl
    · rw [if_neg hmem, hfk]
      have : (raiseAll S).testBit n = false := by
        cases h : (raiseAll S).testBit n
        · rfl
        · exact (hmem (hbit.mp h)).elim
      rw [this]
      show false = Nat.testBit 0 n
      rw [Nat.zero_testBit]
  · have hfk : f.testBit k = false := by
      rw [hn, testBit_two_pow_cast]; exact decide_eq_false hk
    rw [hfk, Bool.and_false]
    by_cases hmem : f ∈ S
    · rw [if_pos hmem, hfk]
    · rw [if_neg hmem]
      show false = Nat.testBit 0 k
      rw [Nat.zero_testBit]

/-- A classification raised from a list of flags is a single flag exactly when the list
is not empty and holds that flag only. -/
theorem raiseAll_eq_flag (S : List Int) (hS : ∀ f ∈ S, f ∈ allFlags) (g : Int)
    (hg : g ∈ allFlags) : raiseAll S = g ↔ (S ≠ [] ∧ ∀ f ∈ S, f = g) := by
  obtain ⟨n, _, _, hn⟩ := flag_bit g hg
  constructor
  · intro h
    constructor
    · intro he
      rw [he] at h
      have : g.testBit n = false := by
        rw [← h]
        show Nat.testBit 0 n = false
        exact Nat.zero_testBit n
      rw [hn, testBit_two_pow_cast] at this
      exact absurd rfl (of_decide_eq_false this)
    · intro f hf
      obtain ⟨m, _, _, hm⟩ := flag_bit f (hS f hf)
      have h1 : (raiseAll S).testBit m = true := by
        rw [raiseAll_testBit S hS m, ← hm]; exact hf
      rw [h, hn, testBit_two_pow_cast] at h1
      have : n = m := of_decide_eq_true h1
      rw [hm, hn, this]
  · rintro ⟨hne, hall⟩
    apply Int_eq_of_testBit_eq
    intro k
    cases hb : (raiseAll S).testBit k
    · cases hb2 : g.testBit k
      · rfl
      · rw [hn, testBit_two_pow_cast] at hb2
        have hk : n = k := of_decide_eq_true hb2
        obtain ⟨f, hf⟩ := List.exists_mem_of_ne_nil S hne
        have : (raiseAll S).testBit k = true := by
          rw [raiseAll_testBit S hS k, ← hk, ← hn, ← hall f hf]; exact hf
        rw [hb] at this
        exact Bool.noConfusion this
    · have hmem := (raiseAll_testBit S hS k).mp hb
      have := hall _ hmem
      rw [← this, testBit_two_pow_cast]
      exact (decide_eq_true rfl).symm

/-- C19: the twelve classification flags are pairwise distinct, each is a single bit
(`1 << n` for `n` = 1, ..., 12) and none is `ExprTypeInvalid`; so a classification
raised from a non-empty list of flags is never `Invalid`, each flag tested against it
with `&` comes back exactly when it was raised, and `IsDateOnly` and `IsTimeOnly` hold
exactly for the classification that is the single flag Date and Time: the one raised
from a non-empty list that holds nothing but that flag. -/
theorem ExprType_flags :
    allFlags.Nodup ∧ allFlags.length = 12 ∧
    allFlags = (List.range 12).map (fun i => ((2 ^ (i + 1) : Nat) : Int)) ∧
    (∀ f ∈ allFlags, f ≠ ExprTypeInvalid) ∧
    raiseAll [] = ExprTypeInvalid ∧
    (∀ S : List Int, (∀ f ∈ S, f ∈ allFlags) → S ≠ [] → raiseAll S ≠ ExprTypeInvalid) ∧
    (∀ S : List Int, (∀ f ∈ S, f ∈ allFlags) → ∀ f ∈ allFlags,
      Int.land (raiseAll S) f = (if f ∈ S then f else 0)) ∧
    (∀ x : Int, IsDateOnly x = true ↔ x = ExprTypeDate) ∧
    (∀ x : Int, IsTimeOnly x = true ↔ x = ExprTypeTime) ∧
    (∀ S : List Int, (∀ f ∈ S, f ∈ allFlags) →
      (IsDateOnly (raiseAll S) = true ↔ (S ≠ [] ∧ ∀ f ∈ S, f = ExprTypeDate))) ∧
    (∀ S : List Int, (∀ f ∈ S, f ∈ allFlags) →
      (IsTimeOnly (raiseAll S) = true ↔ (S ≠ [] ∧ ∀ f ∈ S, f = ExprTypeTime))) := by
  have hD : ∀ x : Int, IsDateOnly x = true ↔ x = ExprTypeDate := fun x => by
    unfold IsDateOnly; exact beq_iff_eq
  have hT : ∀ x : Int, IsTimeOnly x = true ↔ x = ExprTypeTime := fun x => by
    unfold IsTimeOnly; exact beq_iff_eq
  refine ⟨by decide, rfl, by decide, by decide, rfl, ?_, raiseAll_land, hD, hT, ?_, ?_⟩
  · intro S hS hne h0
    obtain ⟨f, hf⟩ := List.exists_mem_of_ne_nil S hne
    obtain ⟨n, _, _, hn⟩ := flag_bit f (hS f hf)
    have h1 : (raiseAll S).testBit n = true := by
      rw [raiseAll_testBit S hS n, ← hn]; exact hf
    rw [h0] at h1
    have : Int.testBit ExprTypeInvalid n = false := by
      show Nat.testBit 0 n = false
      exact Nat.zero_testBit n
    rw [this] at h1
    exact Bool.noConfusion h1
  · intro S hS
    rw [hD]
    exact raiseAll_eq_flag S hS ExprTypeDate (by decide)
  · intro S hS
    rw [hT]
    exact raiseAll_eq_flag S hS ExprTypeTime (by decide)

/-! ## age.go: completed years -/

/-- Counted on the scale of a leap year, the days of the year stand in the order of
their months and days. -/
theorem leapScale_lt_iff (m1 d1 m2 d2 : Int) (a1 : 1 ≤ m1) (a2 : m1 ≤ 12) (a3 : 1 ≤ d1)
    (a4 : d1 ≤ (if m1 = 2 then 29 else daysBefore m1 - daysBefore (m1 - 1)))
    (b1 : 1 ≤ m2) (b2 : m2 ≤ 12) (b3 : 1 ≤ d2)
    (b4 : d2 ≤ (if m2 = 2 then 29 else daysBefore m2 - daysBefore (m2 - 1))) :
    daysBefore (m1 - 1) + (if m1 ≥ 3 then 1 else 0) + d1 <
      daysBefore (m2 - 1) + (if m2 ≥ 3 then 1 else 0) + d2 ↔
    (m1 < m2 ∨ (m1 = m2 ∧ d1 < d2)) := by
  have t1 := yday_thresholds true m1 d1 a1 a2 a3 (by simpa using a4)
  have t2 := yday_thresholds true m2 d2 b1 b2 b3 (by simpa using b4)
  simp only [true_and, if_true] at t1 t2
  rcases lt_trichotomy m1 m2 with h | h | h
  · have : daysBefore (m1 - 1) + (if m1 ≥ 3 then 1 else 0) + d1 <
        daysBefore (m2 - 1) + (if m2 ≥ 3 then 1 else 0) + d2 := by
      interval_cases m1 <;> omega
    exact ⟨fun _ => Or.inl h, fun _ => this⟩
  · subst h
    constructor
    · intro g; right; exact ⟨rfl, by omega⟩
    · rintro (g | ⟨_, g⟩)
      · omega
      · omega
  · have : daysBefore (m2 - 1) + (if m2 ≥ 3 then 1 else 0) + d2 <
        daysBefore (m1 - 1) + (if m1 ≥ 3 then 1 else 0) + d1 := by
      interval_cases m2 <;> omega
    constructor
    · intro g; omega
    · rintro (g | ⟨g, _⟩) <;> omega

/-- The comparison of days of the year that `calculate` makes, read as a comparison of
months and days: the day of the year of the start is first moved to the scale of the
year of the end. -/
theorem yearDay_compare (ls le : Bool) (sm sd em ed : Int)
    (s1 : 1 ≤ sm) (s2 : sm ≤ 12) (s3 : 1 ≤ sd)
    (s4 : sd ≤ (if sm = 2 ∧ ls then 29 else daysBefore sm - daysBefore (sm - 1)))
    (e1 : 1 ≤ em) (e2 : em ≤ 12) (e3 : 1 ≤ ed)
    (e4 : ed ≤ (if em = 2 ∧ le then 29 else daysBefore em - daysBefore (em - 1))) :
    (daysBefore (em - 1) + (if le ∧ em ≥ 3 then 1 else 0) + (ed - 1) + 1 <
      (if ls ∧ ¬ le ∧
          daysBefore (sm - 1) + (if ls ∧ sm ≥ 3 then 1 else 0) + (sd - 1) + 1 ≥ 60 then
        daysBefore (sm - 1) + (if ls ∧ sm ≥ 3 then 1 else 0) + (sd - 1) + 1 - 1
       else if le ∧ ¬ ls ∧
          daysBefore (em - 1) + (if le ∧ em ≥ 3 then 1 else 0) + (ed - 1) + 1 ≥ 60 then
        daysBefore (sm - 1) + (if ls ∧ sm ≥ 3 then 1 else 0) + (sd - 1) + 1 + 1
       else daysBefore (sm - 1) + (if ls ∧ sm ≥ 3 then 1 else 0) + (sd - 1) + 1)) ↔
    (em < sm ∨ (em = sm ∧ ed < (if sm = 2 ∧ sd = 29 ∧ ¬ le then 28 else sd))) := by
  obtain ⟨d0, d1, d2, d3, d4, d5, d6, d7, d8, d9, d10, d11, d12⟩ := daysBefore_vals
  obtain ⟨_, _, _, ts, _⟩ := yday_thresholds ls sm sd s1 s2 s3 s4
  obtain ⟨_, _, _, te, _⟩ := yday_thresholds le em ed e1 e2 e3 e4
  have feb : ∀ m : Int, m = 2 → daysBefore m = 59 ∧ daysBefore (m - 1) = 31 := by
    intro m hm
    subst hm
    exact ⟨d2, d1⟩
  have s4l : sd ≤ (if sm = 2 then 29 else daysBefore sm - daysBefore (sm - 1)) := by
    by_cases c : sm = 2
    · obtain ⟨f1, f2⟩ := feb sm c
      rw [if_pos c]; split at s4 <;> omega
    · rw [if_neg c]; rw [if_neg (fun h => c h.1)] at s4; exact s4
  have e4l : ed ≤ (if em = 2 then 29 else daysBefore em - daysBefore (em - 1)) := by
    by_cases c : em = 2
    · obtain ⟨f1, f2⟩ := feb em c
      rw [if_pos c]; split at e4 <;> omega
    · rw [if_neg c]; rw [if_neg (fun h => c h.1)] at e4; exact e4
  by_cases hf : sm = 2 ∧ sd = 29 ∧ ¬ le = true
  · rw [if_pos hf]
    obtain ⟨f1, f2, f3⟩ := hf
    obtain ⟨g1, g2⟩ := feb sm f1
    have hls : ls = true := by
      cases ls
      · simp only [Bool.false_eq_true, and_false, if_false] at s4; omega
      · rfl
    have hle : le = false := by cases le <;> simp_all
    subst hls hle
    have key := leapScale_lt_iff em ed sm 28 e1 e2 e3 e4l s1 s2 (by decide)
      (by rw [if_pos f1]; decide)
    rw [← key]
    simp only [Bool.false_eq_true, false_and, and_false, not_false_eq_true, and_self,
      true_and, if_true, if_false] at te ⊢
    split_ifs <;> constructor <;> intro g <;> omega
  · rw [if_neg hf]
    have key := leapScale_lt_iff em ed sm sd e1 e2 e3 e4l s1 s2 s3 s4l
    rw [← key]
    have hsd : ¬ (sm = 2 ∧ sd = 29) ∨ le = true := by
      by_cases c : le = true
      · exact Or.inr c
      · left; intro h; exact hf ⟨h.1, h.2, c⟩
    have feb29 : sm = 2 → daysBefore sm = 59 ∧ daysBefore (sm - 1) = 31 := feb sm
    cases ls <;> cases le <;>
      simp only [Bool.false_eq_true, false_and, and_false, not_false_eq_true, not_true_eq_false,
        and_self, and_true, or_false, or_true, true_and, if_true, if_false] at ts te s4 e4 hsd ⊢ <;>
      split_ifs at s4 ⊢ <;> constructor <;> intro g <;> omega

theorem YearDay_fields (t : Time) :
    t.YearDay = daysBefore (t.Month - 1) + (if isLeap t.Year ∧ t.Month ≥ 3 then 1 else 0) +
      (t.Day - 1) + 1 := by
  obtain ⟨_, _, _, _, hc, hy⟩ := absDate_valid t.abs
  unfold civilDays at hc
  simp only [Time.YearDay, Time.Year, Time.Month, Time.Day]
  omega

theorem calculate_eq (s e : Time) :
    calculate s e = (e.Year - s.Year) -
      (if monthDayBefore e.Month e.Day s.Month (startDayFor s.Month s.Day e.Year) then 1
       else 0) := by
  obtain ⟨a1, a2, a3, a4, _⟩ := Time_fields_valid s
  obtain ⟨b1, b2, b3, b4, _⟩ := Time_fields_valid e
  have key := yearDay_compare (isLeap s.Year) (isLeap e.Year) s.Month s.Day e.Month e.Day
    a1 a2 a3 a4 b1 b2 b3 b4
  simp only [calculate, calculateLeapYearDay, monthDayBefore, startDayFor, IsLeapYear_eq_isLeap,
    YearDay_fields s, YearDay_fields e]
  by_cases c : e.Month < s.Month ∨ (e.Month = s.Month ∧
      e.Day < (if s.Month = 2 ∧ s.Day = 29 ∧ ¬ isLeap e.Year = true then 28 else s.Day))
  · rw [if_pos (key.mpr c), if_pos c]
  · rw [if_neg (fun h => c (key.mp h)), if_neg c, sub_zero]

/-- C20: for all timestamps `s` and `e`, `calculate s e` is the year of `e` minus the year
of `s`, less 1 when the month and day of `e` come before the month and day of `s` in
the order of the calendar, where a start on 29 February counts as 28 February when the
year of `e` is not a leap year; `calculate t t = 0`; the result lies between 0 and the
difference of the years when the date of `s` is not after the date of `e`; and for two
timestamps in the same location `Calculate` is `calculate`. -/
theorem calculate_spec (s e : Time) :
    calculate s e = (e.Year - s.Year) -
      (if monthDayBefore e.Month e.Day s.Month (startDayFor s.Month s.Day e.Year) then 1
       else 0) ∧
    calculate s s = 0 ∧
    ((s.Year < e.Year ∨ (s.Year = e.Year ∧ ¬ monthDayBefore e.Month e.Day s.Month s.Day)) →
      0 ≤ calculate s e ∧ calculate s e ≤ e.Year - s.Year) ∧
    (s.loc = e.loc → Calculate s e = calculate s e) := by
  obtain ⟨a1, a2, a3, a4, _⟩ := Time_fields_valid s
  refine ⟨calculate_eq s e, ?_, ?_, ?_⟩
  · rw [calculate_eq, if_neg, sub_self, sub_zero]
    unfold monthDayBefore startDayFor
    rw [IsLeapYear_eq_isLeap]
    rintro (h | ⟨_, h⟩)
    · omega
    · split at h
      · rename_i c
        obtain ⟨c1, c2, c3⟩ := c
        unfold daysIn at a4
        rw [if_neg (fun g => c3 g.2)] at a4
        obtain ⟨-, d1, d2, -⟩ := daysBefore_vals
        rw [c1] at a4
        norm_num [d1, d2] at a4
        omega
      · omega
  · intro h
    rw [calculate_eq]
    have hle : startDayFor s.Month s.Day e.Year ≤ s.Day := by
      unfold startDayFor
      split
      · rename_i c; omega
      · exact le_refl _
    unfold monthDayBefore at h ⊢
    split <;> omega
  · intro h
    unfold Calculate Time.Location
    have e1 : s.In e.loc = s := by
      cases s
      simp only [Time.In] at h ⊢
      rw [h]
    have e2 : e.loc = UTC → s.UTC = s := by
      intro g
      cases s
      simp only [Time.UTC] at h ⊢
      rw [← g, h]
    simp only []
    split
    · rename_i g; rw [e2 g]
    · rw [e1]

end date
